import Mathlib

set_option maxRecDepth 100000

/-!
Verification of the syncfm.ts identity-and-matching subsystem.

This file shallow-embeds the text normalizer, the identity fingerprinter
(`generateSyncId` and friends), the shortcode generator, the merge engine
(`mergeData` with the per-entity strategy tables), the in-flight conversion
map, and the post-fan-out resolution logic of the conversion orchestrator.

Modelling conventions:
* strings are Lean `String`/`List Char`; JavaScript regular-expression
  replacements are implemented as explicit left-to-right scanners with the
  same leftmost-match / alternation-order / greediness semantics as the
  source patterns;
* the Unicode classes `\p{L}`/`\p{N}` are modelled by the ASCII classes
  `Char.isAlpha`/`Char.isDigit` (all inputs appearing in the claims are
  ASCII), and `\s` by the common JavaScript whitespace characters;
* JavaScript numbers that the code only ever uses as integers (durations,
  timestamps, counters) are `Int`/`Nat`; 32-bit wrap-around is written as
  an explicit `% 2 ^ 32`;
* `Math.imul`/`>>> 0` arithmetic is carried out on `Nat` modulo `2 ^ 32`;
* fallible code (JavaScript `throw`, or `return;` yielding `undefined`)
  is `Option`/`Except`.
-/

namespace SyncFM

/-- JavaScript `\s` (the whitespace characters relevant to this code base). -/
def isWsChar (c : Char) : Bool :=
  c.toNat == 32 || c.toNat == 9 || c.toNat == 10 || c.toNat == 13 ||
    c.toNat == 11 || c.toNat == 12

/-- JavaScript `\w` / word character, as used by `\b` (ASCII, no `u` flag). -/
def isWordChar (c : Char) : Bool :=
  c.isAlpha || c.isDigit || c == '_'

/-- Model of the `\p{L}\p{N}` character class (ASCII letters and digits). -/
def isAlnumChar (c : Char) : Bool :=
  c.isAlpha || c.isDigit

/-- Maximal whitespace-free words of a character list, in order (fuel-based
so that it evaluates by kernel reduction; the fuel is one more than the
length, and every step consumes at least one character). -/
def wordsOfF : Nat → List Char → List (List Char)
  | 0, _ => []
  | _ + 1, [] => []
  | fuel + 1, c :: cs =>
    if isWsChar c then wordsOfF fuel cs
    else
      (c :: cs.takeWhile (fun x => !isWsChar x)) ::
        wordsOfF fuel (cs.dropWhile (fun x => !isWsChar x))

/-- Maximal whitespace-free words of a character list, in order. -/
def wordsOf (s : List Char) : List (List Char) :=
  wordsOfF (s.length + 1) s

/-- Join words with single spaces. -/
def joinWords : List (List Char) → List Char
  | [] => []
  | [w] => w
  | w :: rest => w ++ ' ' :: joinWords rest

/-- Source `collapseWhitespace`: `s.replace(/\s+/g, " ").trim()`, expressed as
joining the whitespace-separated words with single spaces. -/
def collapseWhitespace (s : List Char) : List Char :=
  joinWords (wordsOf s)

/-- JavaScript `String.prototype.trim` on a character list. -/
def trimChars (s : List Char) : List Char :=
  ((s.dropWhile isWsChar).reverse.dropWhile isWsChar).reverse

/-- Case-insensitive literal match of `pat` (given in lowercase) at the head of
`s`; returns the remainder on success. -/
def matchCIRest : List Char → List Char → Option (List Char)
  | [], s => some s
  | _ :: _, [] => none
  | p :: ps, c :: cs => if p == c.toLower then matchCIRest ps cs else none

/-- Whether a `\b` word boundary holds between a word character and the start
of `rest`. -/
def boundaryAfter (rest : List Char) : Bool :=
  match rest with
  | [] => true
  | c :: _ => !isWordChar c

/-- Length of the maximal whitespace run at the head of `s`. -/
def wsRunLen (s : List Char) : Nat :=
  (s.takeWhile isWsChar).length

/-- Does `sub` occur (case-sensitively) anywhere in `s`? Model of
`String.prototype.includes`. -/
def containsSeq (s sub : List Char) : Bool :=
  (List.range (s.length + 1)).any (fun i => sub.isPrefixOf (s.drop i))

/-!
Generic scanners mirroring `String.prototype.replace(re, repl)` with a
global regular expression, and regex `split`. A matcher receives the
character preceding the current position (for `\b`) and the text from the
current position, and returns the match length (at least 1) if the pattern
matches here. Scanning is leftmost to rightmost and resumes after each
match, exactly like a JavaScript global replace.
-/

/-- Global regex replace: replace every leftmost match by `repl`. -/
def scanReplace (m : Option Char → List Char → Option Nat) (repl : List Char) :
    Nat → Option Char → List Char → List Char
  | 0, _, s => s
  | _ + 1, _, [] => []
  | fuel + 1, prev, c :: cs =>
    match m prev (c :: cs) with
    | some (n + 1) => repl ++ scanReplace m repl fuel ((c :: cs)[n]?) ((c :: cs).drop (n + 1))
    | _ => c :: scanReplace m repl fuel (some c) cs

/-- Global regex split: the pieces of the text between the leftmost matches. -/
def scanSplit (m : Option Char → List Char → Option Nat) :
    Nat → Option Char → List Char → List Char → List (List Char)
  | 0, _, acc, s => [acc.reverse ++ s]
  | _ + 1, _, acc, [] => [acc.reverse]
  | fuel + 1, prev, acc, c :: cs =>
    match m prev (c :: cs) with
    | some (n + 1) => acc.reverse :: scanSplit m fuel ((c :: cs)[n]?) [] ((c :: cs).drop (n + 1))
    | _ => scanSplit m fuel (some c) (c :: acc) cs

/-- The prefix of `s` before the first position where `m` matches (the first
piece a regex `split` would produce). -/
def firstPieceBefore (m : List Char → Option Nat) : List Char → List Char
  | [] => []
  | c :: cs => if (m (c :: cs)).isSome then [] else c :: firstPieceBefore m cs

/-!
The `feat`/`ft` tail pattern `\b(?:feat(?:uring)?|ft)\b[:.\s-]*.*$` (flag
`i`, non-global). `$`/`.*` are modelled as running to the end of the
string; inputs with embedded newlines are outside the modelled domain.
-/

/-- Match one of `featuring`/`feat`/`ft` (in that alternation order, as the
greedy `feat(?:uring)?|ft` tries them) followed by a word boundary. -/
def featWordLen (s : List Char) : Option Nat :=
  let tryWord : List Char → Nat → Option Nat := fun w n =>
    match matchCIRest w s with
    | some rest => if boundaryAfter rest then some n else none
    | none => none
  (tryWord "featuring".data 9).orElse fun _ =>
    (tryWord "feat".data 4).orElse fun _ =>
      tryWord "ft".data 2

/-- Characters of `s` strictly before the first `feat`/`ft` word that sits at
a word boundary, if such a word occurs. -/
def featSplitGo : Option Char → List Char → Option (List Char)
  | _, [] => none
  | prev, c :: cs =>
    let bOK : Bool := match prev with | none => true | some p => !isWordChar p
    if bOK && (featWordLen (c :: cs)).isSome then some []
    else (featSplitGo (some c) cs).map (c :: ·)

/-- Source step `t.replace(/\b(?:feat(?:uring)?|ft)\b[:.\s-]*.*$/i, repl)`. -/
def removeFeatTail (repl : List Char) (s : List Char) : List Char :=
  match featSplitGo none s with
  | some pre => pre ++ repl
  | none => s

/-- Index of the first `)`/`]` reachable without crossing a newline (the lazy
`.*?(?:\)|\])` tail of the bracket patterns). -/
def lazyToClose : List Char → Option Nat
  | [] => none
  | c :: cs =>
    if c == ')' || c == ']' then some 0
    else if c == '\n' then none
    else (lazyToClose cs).map (· + 1)

/-- Matcher for `\s*(?:\(|\[).*?(?:\)|\])` (bracketed content with its leading
whitespace). -/
def bracketM (_ : Option Char) (s : List Char) : Option Nat :=
  let w := wsRunLen s
  match s.drop w with
  | c :: cs =>
    if c == '(' || c == '[' then
      (lazyToClose cs).map fun k => w + 1 + k + 1
    else none
  | [] => none

/-- Source step removing bracketed / parenthetical content:
`s.replace(/\s*(?:\(|\[).*?(?:\)|\])/g, " ")`. -/
def rmBrackets (s : List Char) : List Char :=
  scanReplace bracketM [' '] (s.length + 1) none s

/-- Try a case-insensitive literal word followed by a `\b` boundary. -/
def tryWordB (w : List Char) (n : Nat) (s : List Char) : Option Nat :=
  match matchCIRest w s with
  | some rest => if boundaryAfter rest then some n else none
  | none => none

/-- Matcher for the noise-word pattern of `normalizeTitle`:
`\b(?:official(?:\svideo)?|video|audio|lyrics?|remaster(?:ed)?|live|remix|mix|edit|version|instrumental|karaoke|cover)\b`
(alternatives tried in source order, greedy optional parts first). -/
def noiseM (prev : Option Char) (s : List Char) : Option Nat :=
  let bOK : Bool := match prev with | none => true | some p => !isWordChar p
  if !bOK then none
  else
    let officialAlt : Option Nat :=
      match matchCIRest "official".data s with
      | some rest =>
        (match rest with
          | c :: cs =>
            if isWsChar c then
              match matchCIRest "video".data cs with
              | some r2 => if boundaryAfter r2 then some 14 else none
              | none => none
            else none
          | [] => none).orElse fun _ =>
          if boundaryAfter rest then some 8 else none
      | none => none
    officialAlt.orElse fun _ =>
      (tryWordB "video".data 5 s).orElse fun _ =>
        (tryWordB "audio".data 5 s).orElse fun _ =>
          (tryWordB "lyrics".data 6 s).orElse fun _ =>
            (tryWordB "lyric".data 5 s).orElse fun _ =>
              (tryWordB "remastered".data 10 s).orElse fun _ =>
                (tryWordB "remaster".data 8 s).orElse fun _ =>
                  (tryWordB "live".data 4 s).orElse fun _ =>
                    (tryWordB "remix".data 5 s).orElse fun _ =>
                      (tryWordB "mix".data 3 s).orElse fun _ =>
                        (tryWordB "edit".data 4 s).orElse fun _ =>
                          (tryWordB "version".data 7 s).orElse fun _ =>
                            (tryWordB "instrumental".data 12 s).orElse fun _ =>
                              (tryWordB "karaoke".data 7 s).orElse fun _ =>
                                tryWordB "cover".data 5 s

/-- Source step removing the fixed noise-word vocabulary. -/
def rmNoiseWords (s : List Char) : List Char :=
  scanReplace noiseM [' '] (s.length + 1) none s

/-- The separator characters of `\s*[-—–|:]\s*` (dash, em dash, en dash, pipe,
colon). -/
def dashSepChars : List Char := ['-', '—', '–', '|', ':']

/-- Matcher for `\s*[-—–|:]\s*`. -/
def dashM (s : List Char) : Option Nat :=
  let w := wsRunLen s
  match s.drop w with
  | c :: cs => if dashSepChars.contains c then some (w + 1 + wsRunLen cs) else none
  | [] => none

/-- Source step `t.split(/\s*[-—–|:]\s*/)[0]`. -/
def takeBeforeDash (s : List Char) : List Char :=
  firstPieceBefore dashM s

/-- Source step `t.replace(/[^\p{L}\p{N}\s]/gu, " ")`. -/
def stripNonAlnum (s : List Char) : List Char :=
  s.map fun c => if isAlnumChar c || isWsChar c then c else ' '

/-- Source `normalizeTitle`: the aggressive canonical-title cleanup with its
less destructive fallback when the aggressive result is empty. -/
def normalizeTitleMain (title : String) : List Char :=
  let t := title.data.map Char.toLower
  let t := rmBrackets t
  let t := removeFeatTail [' '] t
  let t := rmNoiseWords t
  let t := takeBeforeDash t
  let t := stripNonAlnum t
  collapseWhitespace t

/-- The fallback branch of `normalizeTitle`: collapse whitespace of the
lowercased original, strip non-alphanumerics, and trim. -/
def normalizeTitleFallback (title : String) : List Char :=
  trimChars (stripNonAlnum (collapseWhitespace (title.data.map Char.toLower)))

/-- Source `normalizeTitle` (part_010 lines 73-100). -/
def normalizeTitle (title : String) : String :=
  let t := normalizeTitleMain title
  if t = [] then ⟨normalizeTitleFallback title⟩ else ⟨t⟩

/-- Try a case-insensitive literal (no boundary requirement), returning its
length. -/
def tryWordCI (w : List Char) (n : Nat) (s : List Char) : Option Nat :=
  match matchCIRest w s with
  | some _ => some n
  | none => none

/-- The alternative group of the `normalizeForSearch` metadata pattern
`(?:explicit|official(?:\s+(?:video|audio|music\s+video))?|video|audio|lyrics?|hd|4k|visualizer)`
(alternation order and greediness as in the source, no word boundaries). -/
def metaAltLen (s : List Char) : Option Nat :=
  let officialAlt : Option Nat :=
    match matchCIRest "official".data s with
    | some rest =>
      let w := wsRunLen rest
      let tail := rest.drop w
      let sub : Option Nat :=
        if w == 0 then none
        else
          (tryWordCI "video".data 5 tail).orElse fun _ =>
            (tryWordCI "audio".data 5 tail).orElse fun _ =>
              match matchCIRest "music".data tail with
              | some r2 =>
                let w2 := wsRunLen r2
                if w2 == 0 then none
                else tryWordCI "video".data (5 + w2 + 5) (r2.drop w2)
              | none => none
      match sub with
      | some k => some (8 + w + k)
      | none => some 8
    | none => none
  (tryWordCI "explicit".data 8 s).orElse fun _ =>
    officialAlt.orElse fun _ =>
      (tryWordCI "video".data 5 s).orElse fun _ =>
        (tryWordCI "audio".data 5 s).orElse fun _ =>
          (tryWordCI "lyrics".data 6 s).orElse fun _ =>
            (tryWordCI "lyric".data 5 s).orElse fun _ =>
              (tryWordCI "hd".data 2 s).orElse fun _ =>
                (tryWordCI "4k".data 2 s).orElse fun _ =>
                  tryWordCI "visualizer".data 10 s

/-- Matcher for the `normalizeForSearch` metadata pattern
`\s*\(?\s*(?:...)\s*\)?` — optional opening parenthesis tried first, then
the variant without it (regex backtracking order). -/
def metaM (_ : Option Char) (s : List Char) : Option Nat :=
  let w1 := wsRunLen s
  let rest1 := s.drop w1
  let closeLen : List Char → Nat := fun after =>
    let w3 := wsRunLen after
    match after.drop w3 with
    | ')' :: _ => w3 + 1
    | _ => w3
  let withParen : Option Nat :=
    match rest1 with
    | '(' :: r =>
      let w2 := wsRunLen r
      match metaAltLen (r.drop w2) with
      | some a => some (w1 + 1 + w2 + a + closeLen (r.drop (w2 + a)))
      | none => none
    | _ => none
  withParen.orElse fun _ =>
    match metaAltLen rest1 with
    | some a => some (w1 + a + closeLen (rest1.drop a))
    | none => none

/-- Matcher for `\s*[-—–|:]\s*(?:ep|lp|single)(?:\s|$)` (album format
descriptors in `normalizeForSearch`). -/
def epLpM (_ : Option Char) (s : List Char) : Option Nat :=
  let w1 := wsRunLen s
  match s.drop w1 with
  | c :: cs =>
    if dashSepChars.contains c then
      let w2 := wsRunLen cs
      let tail := cs.drop w2
      let word : Option Nat :=
        (tryWordCI "single".data 6 tail).orElse fun _ =>
          (tryWordCI "ep".data 2 tail).orElse fun _ =>
            tryWordCI "lp".data 2 tail
      match word with
      | some k =>
        match tail.drop k with
        | [] => some (w1 + 1 + w2 + k)
        | d :: _ => if isWsChar d then some (w1 + 1 + w2 + k + 1) else none
      | none => none
    else none
  | [] => none

/-- Source `normalizeForSearch` (part_010 lines 58-71): the light-touch
search-query cleanup. -/
def normalizeForSearch (title : String) : String :=
  let t := trimChars title.data
  let t := removeFeatTail [] t
  let t := scanReplace metaM [' '] (t.length + 1) none t
  let t := scanReplace epLpM [' '] (t.length + 1) none t
  let t := t.map fun c => if c == '[' then '(' else if c == ']' then ')' else c
  ⟨collapseWhitespace t⟩

/-!
Artist-list normalization (`normalizeArtists`, part_010 lines 102-137).
-/

/-- Matcher for the artist separator pattern
`[,&/×]|(?:\s+and\s+)|(?:\s+with\s+)|(?:\s+&\s+)` (flag `i`). -/
def artistSepM (_ : Option Char) (s : List Char) : Option Nat :=
  match s with
  | [] => none
  | c :: _ =>
    if c == ',' || c == '&' || c == '/' || c == '×' then some 1
    else
      let r := wsRunLen s
      if r == 0 then none
      else
        let tail := s.drop r
        let tryTail : List Char → Nat → Option Nat := fun w n =>
          match matchCIRest w tail with
          | some rest =>
            let r2 := wsRunLen rest
            if r2 == 0 then none else some (r + n + r2)
          | none => none
        (tryTail "and".data 3).orElse fun _ =>
          (tryTail "with".data 4).orElse fun _ =>
            match tail with
            | '&' :: rest2 =>
              let r2 := wsRunLen rest2
              if r2 == 0 then none else some (r + 1 + r2)
            | _ => none

/-- The strings pushed onto `normalizedArtists` for one raw artist string:
bracket removal, separator split, lowercasing, feat-tail removal,
non-alphanumeric stripping, whitespace collapse, dropping empties. -/
def pushedArtistsOf (artistStr : String) : List (List Char) :=
  let s := rmBrackets artistStr.data
  let pieces := scanSplit artistSepM (s.length + 1) none [] s
  pieces.filterMap fun p =>
    let a := p.map Char.toLower
    let a := removeFeatTail [' '] a
    let a := stripNonAlnum a
    let a := collapseWhitespace a
    if a = [] then none else some a

/-- The first processing loop of `normalizeArtists`: returns `none` when some
raw artist string is falsy (the early `return;`). -/
def collectArtists : List String → Option (List (List Char))
  | [] => some []
  | a :: rest =>
    if a = "" then none
    else (collectArtists rest).map (pushedArtistsOf a ++ ·)

/-- The deduplication loop of `normalizeArtists`, with its (dead in practice)
`if (!t) return;` guard, threading the `seen` set. -/
def dedupArtists : List (List Char) → List (List Char) → Option (List (List Char))
  | [], _ => some []
  | a :: rest, seen =>
    let t := trimChars a
    if t = [] then none
    else if seen.contains t then dedupArtists rest seen
    else (dedupArtists rest (t :: seen)).map (t :: ·)

/-- Source `normalizeArtists` (part_010 lines 102-137); `none` models the
`undefined` produced by the early `return;`. -/
def normalizeArtists (artists : List String) : Option (List String) :=
  (collectArtists artists).bind fun pushed =>
    (dedupArtists pushed []).map (·.map fun l => (⟨l⟩ : String))

/-!
The `sortAlphaNum` comparator: `(a, b) => a.localeCompare(b, "en", { numeric:
true })`. Modelled as ICU numeric collation: maximal digit runs compare by
numeric value (so `"2"` sorts before `"10"` and `"02"` ties with `"2"`),
other characters compare case-insensitively at the primary level, and a
case (tertiary) pass breaks primary ties with lowercase first.
-/

/-- Numeric value of a digit run. -/
def natOfDigits (ds : List Char) : Nat :=
  ds.foldl (fun n c => n * 10 + (c.toNat - 48)) 0

/-- Fuel-based worker for `primToks`. -/
def primToksF : Nat → List Char → List (Nat × Nat)
  | 0, _ => []
  | _ + 1, [] => []
  | fuel + 1, c :: cs =>
    if c.isDigit then
      (48, natOfDigits ((c :: cs).takeWhile Char.isDigit)) ::
        primToksF fuel ((c :: cs).dropWhile Char.isDigit)
    else (c.toLower.toNat, 0) :: primToksF fuel cs

/-- Primary collation tokens: a maximal digit run becomes `(48, value)`, any
other character `c` becomes `(toLower c, 0)` (non-digit characters never
have code 48-57, so the two token kinds interleave consistently). -/
def primToks (s : List Char) : List (Nat × Nat) :=
  primToksF (s.length + 1) s

/-- Tertiary (case) collation key: the case bit of each letter, lowercase
first. -/
def caseBits (s : List Char) : List Bool :=
  (s.filter Char.isAlpha).map Char.isUpper

/-- Lexicographic comparison of two lists by a base comparator. -/
def listCmp (c : α → α → Ordering) : List α → List α → Ordering
  | [], [] => .eq
  | [], _ :: _ => .lt
  | _ :: _, [] => .gt
  | a :: as, b :: bs =>
    match c a b with
    | .eq => listCmp c as bs
    | o => o

/-- Comparison of primary tokens. -/
def tokCmp (a b : Nat × Nat) : Ordering :=
  match compare a.1 b.1 with
  | .eq => compare a.2 b.2
  | o => o

/-- The full collation key of a string. -/
def collKey (s : String) : List (Nat × Nat) × List Bool :=
  (primToks s.data, caseBits s.data)

/-- Source `sortAlphaNum` (part_010 lines 229-230), as an `Ordering` (the
sign of the number returned by `localeCompare`). -/
def sortAlphaNum (a b : String) : Ordering :=
  match listCmp tokCmp (primToks a.data) (primToks b.data) with
  | .eq => listCmp compare (caseBits a.data) (caseBits b.data)
  | o => o

/-- The non-strict order induced by `sortAlphaNum` (comparator result `<= 0`),
under which `Array.prototype.sort` orders the array. -/
def artistLe (a b : String) : Prop :=
  sortAlphaNum a b ≠ Ordering.gt

instance : DecidableRel artistLe := fun a b =>
  inferInstanceAs (Decidable (sortAlphaNum a b ≠ Ordering.gt))

/-- Source `bucketDuration` (part_010 lines 224-227):
`Math.round(seconds / 5) * 5` on an integer number of seconds. -/
def bucketDuration (seconds : Int) : Int :=
  ((2 * seconds + 5).fdiv 10) * 5

/-!
Source `extractAllArtistsFromTitle`, `splitArtists` (part_010 lines 277-331).
-/

/-- All full matches of the global `(?:\(|\[)(.*?)(?:\)|\])` pattern, brackets
included, left to right. -/
def bracketMatches : Nat → List Char → List (List Char)
  | 0, _ => []
  | _ + 1, [] => []
  | fuel + 1, c :: cs =>
    if c == '(' || c == '[' then
      match lazyToClose cs with
      | some k => (c :: cs.take (k + 1)) :: bracketMatches fuel (cs.drop (k + 1))
      | none => bracketMatches fuel cs
    else bracketMatches fuel cs

/-- Matcher for `^(?:feat|ft|featuring)\.?\s+` (alternation order as in the
source), returning the matched length. -/
def featHeadLen (s : List Char) : Option Nat :=
  let tryW : List Char → Nat → Option Nat := fun w n =>
    match matchCIRest w s with
    | some rest =>
      let (dot, rest2) : Nat × List Char :=
        match rest with
        | '.' :: r => (1, r)
        | _ => (0, rest)
      let r2 := wsRunLen rest2
      if r2 == 0 then none else some (n + dot + r2)
    | none => none
  (tryW "feat".data 4).orElse fun _ =>
    (tryW "ft".data 2).orElse fun _ =>
      tryW "featuring".data 9

/-- Case-insensitive equality of character lists. -/
def ciEq (a b : List Char) : Bool :=
  a.map Char.toLower == b.map Char.toLower

/-- For `\s+(?:remix|bootleg|edit|mix)$`: the prefix before the (leftmost)
match, when the string ends in whitespace plus one of the words. -/
def remixSplit : List Char → Option (List Char)
  | [] => none
  | c :: cs =>
    if isWsChar c then
      let r := wsRunLen (c :: cs)
      let rest := (c :: cs).drop r
      if ciEq rest "remix".data || ciEq rest "bootleg".data ||
          ciEq rest "edit".data || ciEq rest "mix".data then
        some []
      else (remixSplit cs).map (c :: ·)
    else (remixSplit cs).map (c :: ·)

/-- Test of `/official|video|audio|lyric|visualizer|4k|hd|explicit/i`. -/
def metaTest (s : List Char) : Bool :=
  let l := s.map Char.toLower
  containsSeq l "official".data || containsSeq l "video".data ||
    containsSeq l "audio".data || containsSeq l "lyric".data ||
    containsSeq l "visualizer".data || containsSeq l "4k".data ||
    containsSeq l "hd".data || containsSeq l "explicit".data

/-- Matcher for the `splitArtists` separator `\s+(?:&|vs\.?|and|,)\s+`. -/
def splitArtSepM (_ : Option Char) (s : List Char) : Option Nat :=
  let r := wsRunLen s
  if r == 0 then none
  else
    let tail := s.drop r
    let token : Option Nat :=
      match tail with
      | '&' :: _ => some 1
      | ',' :: _ => some 1
      | _ =>
        (match matchCIRest "vs".data tail with
          | some rest =>
            match rest with
            | '.' :: _ => some 3
            | _ => some 2
          | none => none).orElse fun _ => tryWordCI "and".data 3 tail
    match token with
    | some n =>
      let r2 := wsRunLen (tail.drop n)
      if r2 == 0 then none else some (r + n + r2)
    | none => none

/-- Source `splitArtists` (part_010 lines 277-284). -/
def splitArtists (artistString : String) : List String :=
  if artistString = "" then []
  else
    let pieces := scanSplit splitArtSepM (artistString.data.length + 1) none [] artistString.data
    (pieces.map trimChars).filterMap fun p =>
      if p = [] then none else some (⟨p⟩ : String)

/-- Matcher for `\s+[-–|:]\s+` (the main separator of
`extractAllArtistsFromTitle`; note: no em dash, whitespace required on both
sides). -/
def mainSepM (_ : Option Char) (s : List Char) : Option Nat :=
  let r := wsRunLen s
  if r == 0 then none
  else
    match s.drop r with
    | c :: cs =>
      if c == '-' || c == '–' || c == '|' || c == ':' then
        let r2 := wsRunLen cs
        if r2 == 0 then none else some (r + 1 + r2)
      else none
    | [] => none

/-- Test of the album-format/edition metadata pattern
`^(?:ep|lp|single|deluxe|remaster(?:ed)?|live|acoustic|instrumental|anniversary|edition|version|expanded|bonus|explicit)(?:\s|$)`. -/
def formatMetaTest (s : List Char) : Bool :=
  let tryW : List Char → Bool := fun w =>
    match matchCIRest w s with
    | some rest =>
      match rest with
      | [] => true
      | d :: _ => isWsChar d
    | none => false
  tryW "ep".data || tryW "lp".data || tryW "single".data || tryW "deluxe".data ||
    tryW "remastered".data || tryW "remaster".data || tryW "live".data ||
    tryW "acoustic".data || tryW "instrumental".data || tryW "anniversary".data ||
    tryW "edition".data || tryW "version".data || tryW "expanded".data ||
    tryW "bonus".data || tryW "explicit".data

/-- Remove the first literal occurrence of `sub` from `s`
(`String.prototype.replace` with a string pattern). -/
def removeFirstSeq (sub : List Char) : List Char → List Char
  | [] => []
  | c :: cs =>
    if sub.isPrefixOf (c :: cs) then (c :: cs).drop sub.length
    else c :: removeFirstSeq sub cs

/-- First-occurrence-order deduplication (`Array.from(new Set(xs))`). -/
def dedupKeepFirst : List String → List String → List String
  | _, [] => []
  | seen, a :: rest =>
    if seen.contains a then dedupKeepFirst seen rest
    else a :: dedupKeepFirst (a :: seen) rest

/-- Source `extractAllArtistsFromTitle` (part_010 lines 286-331). -/
def extractAllArtistsFromTitle (title : String) : List String :=
  if title = "" then []
  else
    let step := fun (st : List String × List Char) (m : List Char) =>
      let inner := trimChars (m.drop 1 |>.dropLast)
      let acc :=
        match featHeadLen inner with
        | some n => st.1 ++ splitArtists ⟨trimChars (inner.drop n)⟩
        | none =>
          match remixSplit inner with
          | some pre => st.1 ++ splitArtists ⟨trimChars pre⟩
          | none =>
            if metaTest inner then st.1
            else st.1 ++ splitArtists ⟨inner⟩
      (acc, removeFirstSeq m st.2)
    let st := (bracketMatches (title.data.length + 1) title.data).foldl step ([], title.data)
    let parts := scanSplit mainSepM (st.2.length + 1) none [] st.2
    let withMain :=
      match parts with
      | _ :: p1 :: _ =>
        let afterSeparator := (trimChars p1).map Char.toLower
        if formatMetaTest afterSeparator then st.1
        else st.1 ++ splitArtists ⟨trimChars (parts.headD [])⟩
      | _ => st.1
    dedupKeepFirst [] withMain

/-!
SHA-256 (FIPS 180-4), as computed by Node's
`createHash("sha256").update(s).digest("hex")` on the UTF-8 encoding of `s`.
All words are `Nat` reduced modulo `2 ^ 32`.
-/

/-- UTF-8 encoding of a string. -/
def utf8Bytes (s : String) : List Nat :=
  s.data.flatMap fun c =>
    let n := c.toNat
    if n < 128 then [n]
    else if n < 2048 then [192 ||| (n >>> 6), 128 ||| (n &&& 63)]
    else if n < 65536 then
      [224 ||| (n >>> 12), 128 ||| ((n >>> 6) &&& 63), 128 ||| (n &&& 63)]
    else
      [240 ||| (n >>> 18), 128 ||| ((n >>> 12) &&& 63),
        128 ||| ((n >>> 6) &&& 63), 128 ||| (n &&& 63)]

/-- Right rotation of a 32-bit word. -/
def rotr32 (n x : Nat) : Nat :=
  ((x >>> n) ||| (x <<< (32 - n))) % 4294967296

/-- The SHA-256 round constants (FIPS 180-4 section 4.2.2, in decimal). -/
def sha256K : List Nat :=
  [1116352408, 1899447441, 3049323471, 3921009573,
   961987163, 1508970993, 2453635748, 2870763221,
   3624381080, 310598401, 607225278, 1426881987,
   1925078388, 2162078206, 2614888103, 3248222580,
   3835390401, 4022224774, 264347078, 604807628,
   770255983, 1249150122, 1555081692, 1996064986,
   2554220882, 2821834349, 2952996808, 3210313671,
   3336571891, 3584528711, 113926993, 338241895,
   666307205, 773529912, 1294757372, 1396182291,
   1695183700, 1986661051, 2177026350, 2456956037,
   2730485921, 2820302411, 3259730800, 3345764771,
   3516065817, 3600352804, 4094571909, 275423344,
   430227734, 506948616, 659060556, 883997877,
   958139571, 1322822218, 1537002063, 1747873779,
   1955562222, 2024104815, 2227730452, 2361852424,
   2428436474, 2756734187, 3204031479, 3329325298]

/-- The SHA-256 initial hash value (FIPS 180-4 section 5.3.3, in decimal). -/
def sha256H0 : List Nat :=
  [1779033703, 3144134277, 1013904242, 2773480762,
   1359893119, 2600822924, 528734635, 1541459225]

/-- SHA-256 message padding. -/
def sha256Pad (msg : List Nat) : List Nat :=
  let r := msg.length % 64
  let p := (119 - r) % 64
  let bitLen := 8 * msg.length
  msg ++ 128 :: List.replicate p 0 ++
    (List.range 8).map fun i => (bitLen >>> (8 * (7 - i))) % 256

/-- Split a byte list into 64-byte blocks. -/
def chunks64 : Nat → List Nat → List (List Nat)
  | 0, _ => []
  | _ + 1, [] => []
  | fuel + 1, l => l.take 64 :: chunks64 fuel (l.drop 64)

/-- The 16 big-endian message words of one block. -/
def wordsOfBlock (b : List Nat) : List Nat :=
  (List.range 16).map fun i =>
    b.getD (4 * i) 0 * 16777216 + b.getD (4 * i + 1) 0 * 65536 +
      b.getD (4 * i + 2) 0 * 256 + b.getD (4 * i + 3) 0

/-- Extension of the 16 message words to the 64-entry schedule. -/
def sha256Schedule (w16 : List Nat) : List Nat :=
  (List.range 48).foldl
    (fun w _ =>
      let i := w.length
      let x15 := w.getD (i - 15) 0
      let x2 := w.getD (i - 2) 0
      let s0 := rotr32 7 x15 ^^^ rotr32 18 x15 ^^^ (x15 >>> 3)
      let s1 := rotr32 17 x2 ^^^ rotr32 19 x2 ^^^ (x2 >>> 10)
      w ++ [(w.getD (i - 16) 0 + s0 + w.getD (i - 7) 0 + s1) % 4294967296])
    w16

/-- One SHA-256 block compression. -/
def sha256Compress (h : List Nat) (block : List Nat) : List Nat :=
  let ws := sha256Schedule (wordsOfBlock block)
  let final :=
    (sha256K.zip ws).foldl
      (fun (st : List Nat) kw =>
        let va := st.getD 0 0
        let vb := st.getD 1 0
        let vc := st.getD 2 0
        let vd := st.getD 3 0
        let ve := st.getD 4 0
        let vf := st.getD 5 0
        let vg := st.getD 6 0
        let vh := st.getD 7 0
        let sigE := rotr32 6 ve ^^^ rotr32 11 ve ^^^ rotr32 25 ve
        let chooseFG := (ve &&& vf) ^^^ (vg &&& (4294967295 ^^^ ve))
        let acc1 := (vh + sigE + chooseFG + kw.1 + kw.2) % 4294967296
        let sigA := rotr32 2 va ^^^ rotr32 13 va ^^^ rotr32 22 va
        let majVote := (vc &&& vb) ^^^ (vc &&& va) ^^^ (vb &&& va)
        let acc2 := (sigA + majVote) % 4294967296
        [(acc1 + acc2) % 4294967296, va, vb, vc, (vd + acc1) % 4294967296, ve, vf, vg])
      h
  (h.zip final).map fun p => (p.1 + p.2) % 4294967296

/-- SHA-256 digest bytes of a byte list. -/
def sha256Bytes (msg : List Nat) : List Nat :=
  let blocks := chunks64 (msg.length + 73) (sha256Pad msg)
  let hh := blocks.foldl sha256Compress sha256H0
  hh.flatMap fun w => [(w >>> 24) % 256, (w >>> 16) % 256, (w >>> 8) % 256, w % 256]

/-- Lowercase hex digit. -/
def hexDigit (n : Nat) : Char :=
  "0123456789abcdef".data.getD n '0'

/-- Hex string of a byte list. -/
def toHexStr (bs : List Nat) : String :=
  ⟨bs.flatMap fun b => [hexDigit (b / 16), hexDigit (b % 16)]⟩

/-- Hex SHA-256 digest of a string (`createHash("sha256").update(s).digest("hex")`). -/
def sha256Hex (s : String) : String :=
  toHexStr (sha256Bytes (utf8Bytes s))

/-!
Source `generateSyncId` (part_010 lines 232-257).
-/

/-- The loop adding title-extracted artists to the canonical artist list when
not already present (source lines 242-246). -/
def addTitleArtists (canonical titleArtists : List String) : List String :=
  titleArtists.foldl (fun acc art => if acc.contains art then acc else acc ++ [art]) canonical

/-- The combined canonical artist list of `generateSyncId` before sorting
(`none` when `normalizeArtists` returned `undefined`, in which case the
source throws). -/
def combinedCanonicalArtists (title : String) (artists : List String) : Option (List String) :=
  (normalizeArtists artists).map fun ca =>
    addTitleArtists ca (extractAllArtistsFromTitle title)

/-- JavaScript `toLowerCase` on a whole string (ASCII model). -/
def jsToLower (s : String) : String :=
  ⟨s.data.map Char.toLower⟩

/-- Source `generateSyncId`: `none` models the `TypeError` thrown when
`normalizeArtists` returned `undefined`. The in-place `sort(sortAlphaNum)`
is a stable sort by the comparator, modelled by `List.insertionSort`. -/
def generateSyncId (title : String) (artists : List String) (duration : Int) : Option String :=
  (combinedCanonicalArtists title artists).map fun combined =>
    let sorted := List.insertionSort artistLe combined
    let firstArtist := sorted.headD ""
    let roundedDuration := bucketDuration duration
    let stringToHash :=
      jsToLower (normalizeTitle title ++ "_" ++ firstArtist ++ "_" ++ toString roundedDuration)
    sha256Hex stringToHash

/-!
Source `fnv1a`, `toBase62`, `createShortcode` (part_010 lines 5-41).
-/

/-- UTF-16 code units of a string (`charCodeAt` iteration). -/
def utf16Units (s : String) : List Nat :=
  s.data.flatMap fun c =>
    let n := c.toNat
    if n < 65536 then [n]
    else [55296 + (n - 65536) / 1024, 56320 + (n - 65536) % 1024]

/-- Source `fnv1a`: 32-bit FNV-1a over the UTF-16 code units (`Math.imul`
with the final `>>> 0` tracked as arithmetic modulo `2 ^ 32`). -/
def fnv1a (s : String) : Nat :=
  (utf16Units s).foldl (fun h u => ((h ^^^ u) * 16777619) % 4294967296) 2166136261

/-- The base-62 digit alphabet of the source. -/
def base62Digit (k : Nat) : Char :=
  "0123456789abcdefghijklmnopqrstuvwxyzABCDEFGHIJKLMNOPQRSTUVWXYZ".data.getD k '0'

/-- Source `toBase62` (the do-while loop, most significant digit first). -/
def toBase62Go : Nat → Nat → List Char
  | 0, _ => []
  | fuel + 1, n =>
    if n / 62 == 0 then [base62Digit (n % 62)]
    else toBase62Go fuel (n / 62) ++ [base62Digit (n % 62)]

/-- Source `toBase62`. -/
def toBase62 (n : Nat) : List Char :=
  toBase62Go (n + 1) n

/-- JavaScript `padStart(len, "0")`. -/
def padStartZero (len : Nat) (s : List Char) : List Char :=
  List.replicate (len - s.length) '0' ++ s

/-- Source `prefixMap`. -/
def typeCode (type : String) : String :=
  if type = "song" then "so" else if type = "artist" then "ar" else "al"

/-- Source `createShortcode` (part_010 lines 35-41). -/
def createShortcode (id : String) (type : String) : String :=
  typeCode type ++ (⟨padStartZero 6 (toBase62 (fnv1a (type ++ ":" ++ id)))⟩ : String)

/-- Source `parseDurationWithFudge` (part_010 lines 333-335):
`Math.floor((durationMs + 999) / 1000)`. -/
def parseDurationWithFudge (durationMs : Int) : Int :=
  (durationMs + 999).fdiv 1000

/-!
The merge engine (`src/squish.ts`). JavaScript values are modelled by the
inductive `JVal`; an object is an association list in insertion order (a
JavaScript object never has duplicate keys, so definitions that need it
take a `Nodup` hypothesis on the keys). A field holding `undefined` is
modelled as an absent key, which is equivalent for every construct the
source uses (`for…in` skips `undefined` values explicitly, spreads of the
involved objects, lookups).
-/

/-- A JavaScript value (dates and functions do not occur in merged fields;
timestamps are numbers). -/
inductive JVal where
  | jstr : String → JVal
  | jnum : Int → JVal
  | jbool : Bool → JVal
  | jnull : JVal
  | jarr : List JVal → JVal
  | jobj : List (String × JVal) → JVal
deriving Repr

mutual

/-- Structural equality of `JVal`s. -/
def JVal.beq : JVal → JVal → Bool
  | .jstr a, .jstr b => a == b
  | .jnum a, .jnum b => a == b
  | .jbool a, .jbool b => a == b
  | .jnull, .jnull => true
  | .jarr a, .jarr b => JVal.beqList a b
  | .jobj a, .jobj b => JVal.beqFields a b
  | _, _ => false

/-- Structural equality of `JVal` lists. -/
def JVal.beqList : List JVal → List JVal → Bool
  | [], [] => true
  | a :: as, b :: bs => JVal.beq a b && JVal.beqList as bs
  | _, _ => false

/-- Structural equality of field lists. -/
def JVal.beqFields : List (String × JVal) → List (String × JVal) → Bool
  | [], [] => true
  | (k, v) :: as, (k2, v2) :: bs => k == k2 && JVal.beq v v2 && JVal.beqFields as bs
  | _, _ => false

end

mutual

theorem JVal.beq_iff : ∀ a b : JVal, JVal.beq a b = true ↔ a = b
  | .jstr a, .jstr b => by simp [JVal.beq]
  | .jstr _, .jnum _ | .jstr _, .jbool _ | .jstr _, .jnull | .jstr _, .jarr _
  | .jstr _, .jobj _ => by simp [JVal.beq]
  | .jnum a, .jnum b => by simp [JVal.beq]
  | .jnum _, .jstr _ | .jnum _, .jbool _ | .jnum _, .jnull | .jnum _, .jarr _
  | .jnum _, .jobj _ => by simp [JVal.beq]
  | .jbool a, .jbool b => by simp [JVal.beq]
  | .jbool _, .jstr _ | .jbool _, .jnum _ | .jbool _, .jnull | .jbool _, .jarr _
  | .jbool _, .jobj _ => by simp [JVal.beq]
  | .jnull, .jnull => by simp [JVal.beq]
  | .jnull, .jstr _ | .jnull, .jnum _ | .jnull, .jbool _ | .jnull, .jarr _
  | .jnull, .jobj _ => by simp [JVal.beq]
  | .jarr a, .jarr b => by simp [JVal.beq, JVal.beqList_iff a b]
  | .jarr _, .jstr _ | .jarr _, .jnum _ | .jarr _, .jbool _ | .jarr _, .jnull
  | .jarr _, .jobj _ => by simp [JVal.beq]
  | .jobj a, .jobj b => by simp [JVal.beq, JVal.beqFields_iff a b]
  | .jobj _, .jstr _ | .jobj _, .jnum _ | .jobj _, .jbool _ | .jobj _, .jnull
  | .jobj _, .jarr _ => by simp [JVal.beq]

theorem JVal.beqList_iff : ∀ a b : List JVal, JVal.beqList a b = true ↔ a = b
  | [], [] => by simp [JVal.beqList]
  | [], _ :: _ => by simp [JVal.beqList]
  | _ :: _, [] => by simp [JVal.beqList]
  | a :: as, b :: bs => by
    simp [JVal.beqList, JVal.beq_iff a b, JVal.beqList_iff as bs]

theorem JVal.beqFields_iff : ∀ a b : List (String × JVal), JVal.beqFields a b = true ↔ a = b
  | [], [] => by simp [JVal.beqFields]
  | [], _ :: _ => by simp [JVal.beqFields]
  | _ :: _, [] => by simp [JVal.beqFields]
  | (k, v) :: as, (k2, v2) :: bs => by
    simp [JVal.beqFields, JVal.beq_iff v v2, JVal.beqFields_iff as bs, and_assoc]

end

instance : DecidableEq JVal := fun a b =>
  decidable_of_iff (JVal.beq a b = true) (JVal.beq_iff a b)

/-- JavaScript truthiness of a `JVal`. -/
def truthy : JVal → Bool
  | .jstr s => s ≠ ""
  | .jnum n => n ≠ 0
  | .jbool b => b
  | .jnull => false
  | .jarr _ => true
  | .jobj _ => true

/-- Truthiness of a possibly-`undefined` value. -/
def truthyOpt : Option JVal → Bool
  | some v => truthy v
  | none => false

/-- An object in insertion order. -/
abbrev Obj := List (String × JVal)

/-- First-binding lookup (`obj[key]`; `none` is `undefined`). -/
def lookupF (o : Obj) (k : String) : Option JVal :=
  match o with
  | [] => none
  | (k2, v) :: rest => if k2 = k then some v else lookupF rest k

/-- Assignment `obj[key] = v`: replaces the first binding of `key` in place,
or appends a new binding. -/
def setKey (o : Obj) (k : String) (v : JVal) : Obj :=
  match o with
  | [] => [(k, v)]
  | (k2, v2) :: rest => if k2 = k then (k2, v) :: rest else (k2, v2) :: setKey rest k v

/-- Deletion `delete obj[key]`. -/
def eraseKey (o : Obj) (k : String) : Obj :=
  match o with
  | [] => []
  | (k2, v) :: rest => if k2 = k then eraseKey rest k else (k2, v) :: eraseKey rest k

/-- Object spread `{ ...e, ...n }`: the keys of `n`, in order, assigned over
`e`. -/
def spreadObj (e n : Obj) : Obj :=
  n.foldl (fun acc kv => setKey acc kv.1 kv.2) e

/-- Whether an optional value is `null` or `undefined`. -/
def isNullish : Option JVal → Bool
  | none => true
  | some .jnull => true
  | some _ => false

/-- Set-style deduplication `Array.from(new Set(xs))` (first occurrence
kept; the source only applies this to arrays of primitives, where
JavaScript set identity agrees with structural equality). -/
def dedupJVals : List JVal → List JVal :=
  go []
where
  /-- Deduplication with the already-seen prefix. -/
  go : List JVal → List JVal → List JVal
    | _, [] => []
    | seen, a :: rest =>
      if seen.contains a then go seen rest
      else a :: go (a :: seen) rest

/-- The `combine_unique_objects` map: items that are objects carrying a
truthy value under the unique key are collected into a `Map` keyed by that
value — first-insertion order, last value wins. -/
def combineByKey (uk : String) (items : List JVal) : List JVal :=
  let entries := items.foldl
    (fun (acc : List (JVal × JVal)) item =>
      match item with
      | .jobj kvs =>
        match lookupF kvs uk with
        | some kv =>
          if truthy kv then
            if acc.any (fun p => p.1 = kv) then
              acc.map fun p => if p.1 = kv then (p.1, item) else p
            else acc ++ [(kv, item)]
          else acc
        | none => acc
      | _ => acc)
    []
  entries.map (·.2)

/-- Does a (string) value point at the rate-limited thumbnail provider? -/
def isGoogleUrl : JVal → Bool
  | .jstr s => containsSeq s.data "googleusercontent.com".data
  | _ => false

/-- Source `imageUrlMerge` (squish.ts lines 102-110). -/
def imageUrlMerge (existingUrl : Option JVal) (newUrl : JVal) : JVal :=
  if !truthyOpt existingUrl then newUrl
  else if !truthy newUrl then
    match existingUrl with
    | some v => v
    | none => newUrl
  else
    let e := match existingUrl with | some v => v | none => .jnull
    if isGoogleUrl e && !isGoogleUrl newUrl then newUrl
    else if !isGoogleUrl e && isGoogleUrl newUrl then e
    else newUrl

/-- The merge strategies of `squish.ts` (the `custom` case carries its
comparison function, `combine_unique_objects` its unique key when given). -/
inductive MergeStrategy where
  | overwrite : MergeStrategy
  | keep_existing : MergeStrategy
  | prefer_new : MergeStrategy
  | merge_objects : MergeStrategy
  | combine_unique_primitives : MergeStrategy
  | combine_unique_objects : Option String → MergeStrategy
  | custom : Option (Option JVal → JVal → JVal) → MergeStrategy

/-- A merge configuration: per field, an optional strategy. -/
abbrev MergeConfig := String → Option MergeStrategy

/-- The value a configured field holds after one `mergeData` case, given the
value in the accumulated object (`none` = absent) and the incoming value.
Returning the unchanged input models the cases that do not assign. -/
def fieldStep (strat : MergeStrategy) (existingValue : Option JVal) (newValue : JVal) :
    Option JVal :=
  match strat with
  | .overwrite => some newValue
  | .keep_existing =>
    if isNullish existingValue then some newValue else existingValue
  | .prefer_new =>
    if newValue ≠ .jnull then some newValue else existingValue
  | .merge_objects =>
    match existingValue, newValue with
    | some (.jobj e), .jobj n => some (.jobj (spreadObj e n))
    | _, _ => some newValue
  | .combine_unique_primitives =>
    match existingValue, newValue with
    | some (.jarr e), .jarr n => some (.jarr (dedupJVals (e ++ n)))
    | _, _ => some newValue
  | .combine_unique_objects uk =>
    match uk with
    | some u =>
      match existingValue, newValue with
      | some (.jarr e), .jarr n => some (.jarr (combineByKey u (e ++ n)))
      | _, _ => some newValue
    | none => some newValue
  | .custom f =>
    match f with
    | some fn => some (fn existingValue newValue)
    | none => existingValue

/-- One iteration of the `for (const key in newData)` loop of `mergeData`. -/
def applyField (config : MergeConfig) (merged : Obj) (k : String) (newValue : JVal) : Obj :=
  match config k with
  | none => merged
  | some strat =>
    match fieldStep strat (lookupF merged k) newValue with
    | none => merged
    | some nv => setKey merged k nv

/-- Source `mergeData` (squish.ts lines 28-98). -/
def mergeData (existing : Obj) (newData : Obj) (config : MergeConfig) : Obj :=
  newData.foldl (fun merged kv => applyField config merged kv.1 kv.2) existing

/-- Source `songMergeConfig` (squish.ts lines 112-121). -/
def songMergeConfig : MergeConfig := fun k =>
  if k = "title" then some .keep_existing
  else if k = "artists" then some .combine_unique_primitives
  else if k = "album" then some .keep_existing
  else if k = "releaseDate" then some .keep_existing
  else if k = "imageUrl" then some (.custom (some imageUrlMerge))
  else if k = "externalIds" then some .merge_objects
  else if k = "previouslyFailedServices" then some .combine_unique_primitives
  else if k = "explicit" then some .prefer_new
  else none

/-- Source `artistMergeConfig` (squish.ts lines 123-130). -/
def artistMergeConfig : MergeConfig := fun k =>
  if k = "name" then some .keep_existing
  else if k = "imageUrl" then some (.custom (some imageUrlMerge))
  else if k = "externalIds" then some .merge_objects
  else if k = "tracks" then some (.combine_unique_objects (some "syncId"))
  else if k = "albums" then some (.combine_unique_objects (some "syncId"))
  else if k = "previouslyFailedServices" then some .combine_unique_primitives
  else none

/-- Source `albumMergeConfig` (squish.ts lines 132-140). -/
def albumMergeConfig : MergeConfig := fun k =>
  if k = "title" then some .keep_existing
  else if k = "artists" then some .combine_unique_primitives
  else if k = "releaseDate" then some .keep_existing
  else if k = "imageUrl" then some (.custom (some imageUrlMerge))
  else if k = "externalIds" then some .merge_objects
  else if k = "songs" then some (.combine_unique_objects (some "syncId"))
  else if k = "previouslyFailedServices" then some .combine_unique_primitives
  else none

/-!
Source `normalizeSongData` (part_010 lines 139-180): the search-oriented
normalization used by `Database.upsertSong`.
-/

/-- Matcher for the `normalizeSongData` artist separator
`[,&]\s*|\s* and \s*` (flag `i`; the spaces around `and` are literal space
characters). -/
def nsdSepM (_ : Option Char) (s : List Char) : Option Nat :=
  match s with
  | [] => none
  | c :: cs =>
    if c == ',' || c == '&' then some (1 + wsRunLen cs)
    else
      let r := wsRunLen s
      if r == 0 then none
      else if !(s.getD (r - 1) 'x' == ' ') then none
      else
        match matchCIRest "and".data (s.drop r) with
        | some rest =>
          match rest with
          | ' ' :: rest2 => some (r + 3 + 1 + wsRunLen rest2)
          | _ => none
        | none => none

/-- Split on the `normalizeSongData` separator, trim, drop empties
(the `.map(trim).filter(length > 0)` pipeline). -/
def splitNSD (a : String) : List String :=
  let pieces := scanSplit nsdSepM (a.data.length + 1) none [] a.data
  (pieces.map trimChars).filterMap fun p =>
    if p = [] then none else some (⟨p⟩ : String)

/-- Split on the `normalizeSongData` separator and trim only (the featured
artists are not filtered for emptiness in the source). -/
def splitNSDNoFilter (a : List Char) : List String :=
  let pieces := scanSplit nsdSepM (a.length + 1) none [] a
  pieces.map fun p => (⟨trimChars p⟩ : String)

/-- Index of the first `)` reachable without crossing a newline. -/
def lazyToParen : List Char → Option Nat
  | [] => none
  | c :: cs =>
    if c == ')' then some 0
    else if c == '\n' then none
    else (lazyToParen cs).map (· + 1)

/-- First capture of `/\(feat\.? (.*?)\)/i` in the title. -/
def featCapture : List Char → Option (List Char)
  | [] => none
  | c :: cs =>
    if c == '(' then
      match matchCIRest "feat".data cs with
      | some rest =>
        let afterSpace : Option (List Char) :=
          match rest with
          | '.' :: ' ' :: r => some r
          | ' ' :: r => some r
          | _ => none
        match afterSpace with
        | some r =>
          match lazyToParen r with
          | some k => some (r.take k)
          | none => featCapture cs
        | none => featCapture cs
      | none => featCapture cs
    else featCapture cs

/-- Source `normalizeSongData`, restricted to the two outputs
`Database.upsertSong` consumes: the `cleanTitle` and the `allArtists` list
(separator-split input artists plus title-extracted featured artists,
deduplicated). -/
def normalizeSongData (title : String) (artists : List String) : String × List String :=
  let cleanTitle := normalizeForSearch title
  let normalizedArtists := artists.flatMap splitNSD
  let allArtists :=
    if containsSeq (title.data.map Char.toLower) "feat".data then
      match featCapture title.data with
      | some cap =>
        (splitNSDNoFilter cap).foldl
          (fun acc art => if acc.contains art then acc else acc ++ [art]) normalizedArtists
      | none => normalizedArtists
    else normalizedArtists
  (cleanTitle, dedupKeepFirst [] allArtists)

/-!
The error classifier (`src/types/errors.ts`).
-/

/-- Source `categorizeError` (errors.ts lines 36-72), on the lowercased error
message: returns `(errorType, retryable)`. -/
def categorizeError (message : String) : String × Bool :=
  let m := message.data.map Char.toLower
  if containsSeq m "not found".data || containsSeq m "no result".data ||
      containsSeq m "no song found".data || containsSeq m "no artist found".data ||
      containsSeq m "no album found".data then ("not_found", false)
  else if containsSeq m "rate limit".data || containsSeq m "too many requests".data ||
      containsSeq m "429".data then ("rate_limit", true)
  else if containsSeq m "network".data || containsSeq m "timeout".data ||
      containsSeq m "econnrefused".data || containsSeq m "fetch failed".data then
    ("network", true)
  else if containsSeq m "invalid".data || containsSeq m "missing".data ||
      containsSeq m "required".data then ("invalid_data", false)
  else ("unknown", true)

/-- Source `shouldRetryService` (errors.ts lines 77-93); `now` and
`lastAttempt` are epoch milliseconds. -/
def shouldRetryService (now : Nat) (history : Option JVal) : Bool :=
  match history with
  | none => true
  | some h =>
    let fields : Obj := match h with | .jobj kvs => kvs | _ => []
    if !truthyOpt (lookupF fields "retryable") then false
    else
      let attempts : Int := match lookupF fields "attempts" with | some (.jnum n) => n | _ => 0
      if attempts ≥ 3 then false
      else
        let lastAttempt : Int := match lookupF fields "lastAttempt" with | some (.jnum n) => n | _ => 0
        if (now : Int) - lastAttempt < 300000 then false
        else true

/-- Source `shouldRetryImmediately` (errors.ts lines 98-115). -/
def shouldRetryImmediately (errorType : String) (attemptNumber : Nat) : Bool :=
  if errorType = "not_found" || errorType = "invalid_data" then false
  else if errorType = "rate_limit" then false
  else if (errorType = "network" || errorType = "unknown") && attemptNumber < 2 then true
  else false

/-!
The in-flight conversion map (`src/index.ts` lines 824-860). Promises are
identified by tokens (`Nat`); the map operations of `withConversionFlight`
are synchronous (no suspension between the lookup and the registration),
so they are modelled as atomic functions on the map state.
-/

/-- The in-memory `conversionFlights` map: flight key to in-flight promise
token. -/
abbrev FlightMap := List (String × Nat)

/-- Source `getConversionFlightKey`. -/
def getConversionFlightKey (syncId : String) (inputType : String) : String :=
  inputType ++ ":" ++ syncId

/-- First-binding lookup in the flight map. -/
def flightLookup (m : FlightMap) (k : String) : Option Nat :=
  match m with
  | [] => none
  | (k2, v) :: rest => if k2 = k then some v else flightLookup rest k

/-- The entry and registration phase of `withConversionFlight`: if a flight
for the key exists, return it without starting the task; otherwise register
the fresh task's promise. Returns the new map, the promise the caller
awaits, and whether a new conversion task was started. -/
def withConversionFlight (m : FlightMap) (key : String) (freshPromise : Nat) :
    FlightMap × Nat × Bool :=
  match flightLookup m key with
  | some existingFlight => (m, existingFlight, false)
  | none => ((key, freshPromise) :: m, freshPromise, true)

/-- Deletion in the flight map (`conversionFlights.delete(key)`). -/
def flightErase (m : FlightMap) (k : String) : FlightMap :=
  match m with
  | [] => []
  | (k2, v) :: rest => if k2 = k then flightErase rest k else (k2, v) :: flightErase rest k

/-- The `cleanup` continuation installed by `withConversionFlight`, run when
the flight promise settles (fulfilled or rejected): the entry is removed iff
it still maps to this promise. -/
def flightCleanup (m : FlightMap) (key : String) (promise : Nat) : FlightMap :=
  if flightLookup m key = some promise then flightErase m key else m

/-!
The conversion orchestrator (`src/index.ts`), specialized to the `song`
entity kind, over a persistent store modelled as a syncId-keyed map of
records. Network fan-out outcomes are inputs: `invoke` gives each catalog's
`ConversionResult` (the fully retried outcome `invokeServiceMethod`
surfaces), and `retryInvoke` the outcomes of the opportunistic retries in
`checkDatabaseForExistingConversion`. Store reads after writes see the
written state (the bounded re-fetch polling loop collapses, as the model is
single-threaded); `now` is the current epoch-millisecond timestamp.
-/

/-- Modelled from the spec: `SyncFMExternalIdMapToDesiredService` is declared
in `src/types/syncfm.ts`, which is missing from the provided sources. Per
the spec, `externalIds` maps catalog names to catalog-native IDs, and the
adapters (part_002, part_004, AppleMusic/service.ts) store them under the
keys `"Spotify"`, `"YouTube"` and `"AppleMusic"`; this function sends a
requested service name to its catalog key. -/
def externalIdKeyOf (service : String) : String :=
  if service = "applemusic" then "AppleMusic"
  else if service = "spotify" then "Spotify"
  else if service = "ytmusic" then "YouTube"
  else service

/-- Source `SUPPORTED_SERVICES` (index.ts line 16). -/
def SUPPORTED_SERVICES : List String := ["applemusic", "spotify", "ytmusic"]

/-- A classified conversion failure (`ConversionError` of errors.ts). -/
structure ConversionError where
  service : String
  timestamp : Nat
  errorType : String
  message : String
  retryable : Bool
deriving Repr, DecidableEq

/-- The outcome `invokeServiceMethod` surfaces for one catalog
(`ConversionResult` of errors.ts plus the `usedFallback` flag). -/
structure ConversionResult where
  service : String
  success : Bool
  data : Option Obj
  usedFallback : Bool
  error : Option ConversionError
deriving Repr

/-- The persistent `songs` table, keyed by syncId. -/
abbrev Store := List (String × Obj)

/-- Row fetch by syncId. -/
def storeGet (st : Store) (syncId : String) : Option Obj :=
  match st with
  | [] => none
  | (k, r) :: rest => if k = syncId then some r else storeGet rest syncId

/-- Row write by syncId (replace or insert). -/
def storeSet (st : Store) (syncId : String) (r : Obj) : Store :=
  match st with
  | [] => [(syncId, r)]
  | (k, r2) :: rest =>
    if k = syncId then (k, r) :: rest else (k, r2) :: storeSet rest syncId r

/-- The fields of an object-valued field (or `[]`). -/
def objFields (o : Obj) (k : String) : Obj :=
  match lookupF o k with
  | some (.jobj kvs) => kvs
  | _ => []

/-- A `ServiceConversionHistory` record as stored in `conversionErrors`. -/
def historyObj (lastAttempt : Nat) (attempts : Int) (lastError : String) (retryable : Bool) :
    JVal :=
  .jobj [("lastAttempt", .jnum lastAttempt), ("attempts", .jnum attempts),
    ("lastError", .jstr lastError), ("retryable", .jbool retryable)]

/-- All-strings view of a `JVal` list. -/
def strList : List JVal → Option (List String)
  | [] => some []
  | .jstr s :: rest => (strList rest).map (s :: ·)
  | _ => none

/-- Source `Database.upsertEntity` (database.ts lines 588-659) for the songs
table: fetch the existing row, merge the incoming data into it with the
field configuration, and write the merged row back. The per-key async lock
and the row/domain serialization collapse in this single-threaded,
identity-serialized model. -/
def upsertEntity (st : Store) (newData : Obj) (config : MergeConfig) :
    Except String (Obj × Store) :=
  let sidv := lookupF newData "syncId"
  if !truthyOpt sidv then .error "syncId is required for upsert operations."
  else
    match sidv with
    | some (.jstr sid) =>
      let merged :=
        match storeGet st sid with
        | some existingDomain => mergeData existingDomain newData config
        | none => newData
      .ok (merged, storeSet st sid merged)
    | _ => .error "unmodelled non-string syncId"

/-- Source `Database.upsertSong` (database.ts lines 692-699): when the
incoming title is truthy, the title and artists are replaced by their
`normalizeSongData` forms before the merge-based upsert. Titles are strings
or absent in the modelled domain. -/
def upsertSong (st : Store) (songData : Obj) : Except String (Obj × Store) :=
  match lookupF songData "title" with
  | some (.jstr t) =>
    if t = "" then upsertEntity st songData songMergeConfig
    else
      match lookupF songData "artists" with
      | some (.jarr vs) =>
        match strList vs with
        | some arts =>
          let norm := normalizeSongData t arts
          let sd := setKey (setKey songData "title" (.jstr norm.1)) "artists"
            (.jarr (norm.2.map .jstr))
          upsertEntity st sd songMergeConfig
        | none => .error "unmodelled non-string artist entry"
      | _ => .error "artists iteration requires an array"
  | some v => if truthy v then .error "unmodelled non-string title" else upsertEntity st songData songMergeConfig
  | none => upsertEntity st songData songMergeConfig

/-- Source `withShortcode` (part_010 lines 43-54) on an object: the entity
kind is duck-typed from field presence and a `shortcode` field is added. -/
def withShortcodeObj (ctx : Obj) : Obj :=
  let type :=
    if (lookupF ctx "totalTracks").isSome then "album"
    else if (lookupF ctx "albums").isSome then "artist"
    else "song"
  let idStr :=
    match lookupF ctx "syncId" with
    | some (.jstr s) => s
    | some (.jnum n) => toString n
    | some .jnull => "null"
    | some _ => ""
    | none => "undefined"
  setKey ctx "shortcode" (.jstr (createShortcode idStr type))

/-- Source `checkDatabaseForExistingConversion` (index.ts lines 721-822) for
songs: store lookup by syncId, opportunistic retry of previously failed
retryable services (outcomes given by `retryInvoke`), and the
desired-service cache check. Returns the record (if any), the
`foundInDb` flag, and the updated store. -/
def checkDatabaseForExistingConversion (st : Store) (inputSyncId : String)
    (desiredService : String) (retryInvoke : String → ConversionResult) (now : Nat) :
    Except String (Option Obj × Bool × Store) := do
  match storeGet st inputSyncId with
  | none => return (none, false, st)
  | some dbItem0 =>
    let errKVs := objFields dbItem0 "conversionErrors"
    let servicesToRetry :=
      (errKVs.filter fun kv => shouldRetryService now (some kv.2)).map (·.1)
    let afterRetry : Obj × Store ←
      if servicesToRetry.isEmpty then pure (dbItem0, st)
      else do
        let results := servicesToRetry.map retryInvoke
        let folded : Obj × Store ← results.foldlM
          (fun (acc : Obj × Store) result => do
            let (dbItem, stCur) := acc
            if result.success then
              match result.data with
              | some d => do
                let (dbItem2, st2) ← upsertSong stCur d
                let dbItem3 :=
                  match lookupF dbItem2 "conversionErrors" with
                  | some (.jobj kvs) =>
                    setKey dbItem2 "conversionErrors" (.jobj (eraseKey kvs result.service))
                  | _ => dbItem2
                pure (dbItem3, st2)
              | none => errorCase dbItem stCur result
            else errorCase dbItem stCur result)
          (dbItem0, st)
        let (dbItem, st2) := folded
        let (dbItem2, st3) ← upsertSong st2 dbItem
        pure (dbItem2, st3)
    let (dbItem, stOut) := afterRetry
    if truthyOpt (lookupF (objFields dbItem "externalIds") (externalIdKeyOf desiredService)) then
      return (some dbItem, true, stOut)
    else
      return (some dbItem, false, stOut)
where
  /-- The still-failing branch of the retry loop: increment the attempt
  counter and update the stored history entry. -/
  errorCase (dbItem : Obj) (stCur : Store) (result : ConversionResult) :
      Except String (Obj × Store) :=
    match result.error with
    | some e =>
      let kvs := objFields dbItem "conversionErrors"
      let existingAttempts : Int :=
        match lookupF kvs result.service with
        | some (.jobj h) =>
          match lookupF h "attempts" with
          | some (.jnum n) => n
          | _ => 0
        | _ => 0
      let entry := historyObj e.timestamp (existingAttempts + 1) e.message e.retryable
      pure (setKey dbItem "conversionErrors" (.jobj (setKey kvs result.service entry)), stCur)
    | none => pure (dbItem, stCur)

/-- The aggregation loop over the fan-out results (index.ts lines 1023-1063):
successful results are shortcoded and merged; errors and fallback warnings
are collected. Returns the aggregate (if any catalog succeeded), the
cleared/retained error map, the warning map, and this run's failures. -/
def fanOutAggregate (priorEntity : Option Obj) (results : List ConversionResult) (now : Nat) :
    Option Obj × Obj × Obj × Obj :=
  let errs0 := match priorEntity with | some p => objFields p "conversionErrors" | none => []
  let warns0 := match priorEntity with | some p => objFields p "conversionWarnings" | none => []
  results.foldl
    (fun (acc : Option Obj × Obj × Obj × Obj) result =>
      let (aggregatedItem, aggErrors, aggWarnings, failed) := acc
      if result.success then
        match result.data with
        | some d =>
          let incoming := withShortcodeObj d
          let merged :=
            match aggregatedItem with
            | some a => mergeData a incoming songMergeConfig
            | none => incoming
          let warns :=
            if result.usedFallback then
              setKey aggWarnings result.service
                (.jobj [("message", .jstr "No exact syncId match found, used closest match"),
                  ("timestamp", .jnum now)])
            else eraseKey aggWarnings result.service
          (some merged, eraseKey aggErrors result.service, warns, failed)
        | none => errStep aggregatedItem aggErrors aggWarnings failed result
      else errStep aggregatedItem aggErrors aggWarnings failed result)
    (priorEntity, errs0, warns0, [])
where
  /-- The `else if (result.error)` branch recording this run's failure. -/
  errStep (aggregatedItem : Option Obj) (aggErrors aggWarnings failed : Obj)
      (result : ConversionResult) : Option Obj × Obj × Obj × Obj :=
    match result.error with
    | some e =>
      (aggregatedItem, aggErrors, aggWarnings,
        setKey failed result.service (historyObj e.timestamp 1 e.message e.retryable))
    | none => (aggregatedItem, aggErrors, aggWarnings, failed)

/-- Error-summary string `service: message; ...` (index.ts lines 1078-1080
and 1147-1149). -/
def errorSummaryOf (errs : Obj) : String :=
  let parts := errs.map fun kv =>
    let msg :=
      match kv.2 with
      | .jobj h =>
        match lookupF h "lastError" with
        | some (.jstr m) => m
        | _ => "Unknown error"
      | _ => "Unknown error"
    kv.1 ++ ": " ++ msg
  String.intercalate "; " parts

/-- The resolution phase of `executeUnifiedConvert` (index.ts lines
1090-1155): success when the desired catalog's ID is present; partial
success (with an error entry recorded and persisted if none was logged)
when some other catalog's ID is present; a summarizing failure otherwise. -/
def resolveOutcome (st : Store) (convertedItem : Obj) (failedServiceErrors : Obj)
    (desiredService : String) (now : Nat) : Except String (Obj × Store) :=
  let desiredServiceKey := externalIdKeyOf desiredService
  let extIds := objFields convertedItem "externalIds"
  if truthyOpt (lookupF extIds desiredServiceKey) then .ok (convertedItem, st)
  else
    let resolvedItem := convertedItem
    let successfulExternalIds := (extIds.filter fun kv => truthy kv.2).map (·.1)
    if successfulExternalIds.isEmpty then
      let summarySource :=
        let own := objFields resolvedItem "conversionErrors"
        if (lookupF resolvedItem "conversionErrors").isSome then own else failedServiceErrors
      .error ("Could not convert song to desired service: " ++ desiredService ++
        " / Conversion failures: " ++ errorSummaryOf summarySource)
    else
      let hasLoggedDesiredError :=
        truthyOpt (lookupF (objFields resolvedItem "conversionErrors") desiredService)
      if hasLoggedDesiredError then .ok (resolvedItem, st)
      else
        let updatedConversionErrors :=
          setKey (objFields resolvedItem "conversionErrors") desiredService
            (historyObj now 1 ("Missing external ID for " ++ desiredService) true)
        let cv := setKey resolvedItem "conversionErrors" (.jobj updatedConversionErrors)
        match upsertSong st cv with
        | .ok (cv2, st2) => .ok (cv2, st2)
        | .error e => .error e

/-- Source `executeUnifiedConvert` (index.ts lines 1001-1156) for songs:
cache check with opportunistic retries, fan-out (outcomes `invoke`),
aggregation, persistence, re-fetch, and resolution. -/
def executeUnifiedConvert (st : Store) (inputInfo : Obj) (desiredService : String)
    (invoke : String → ConversionResult) (retryInvoke : String → ConversionResult)
    (now : Nat) : Except String (Obj × Store) := do
  match lookupF inputInfo "syncId" with
  | some (.jstr inputSyncId) => do
    let (dbData, foundInDb, st1) ←
      checkDatabaseForExistingConversion st inputSyncId desiredService retryInvoke now
    match dbData with
    | some d =>
      if foundInDb &&
          truthyOpt (lookupF (objFields d "externalIds") (externalIdKeyOf desiredService)) then
        return (d, st1)
      else
        afterCacheMiss st1 (some d) inputSyncId
    | none => afterCacheMiss st1 none inputSyncId
  | _ => .error "unmodelled non-string input syncId"
where
  /-- The fan-out, aggregation, persistence and resolution path. -/
  afterCacheMiss (st1 : Store) (priorEntity : Option Obj) (inputSyncId : String) :
      Except String (Obj × Store) := do
    if !SUPPORTED_SERVICES.contains desiredService then
      .error ("Unsupported desired service: " ++ desiredService)
    else
      let results := SUPPORTED_SERVICES.map invoke
      let (aggregatedItem, aggErrors, aggWarnings, failed) :=
        fanOutAggregate priorEntity results now
      match aggregatedItem with
      | none =>
        .error ("Could not convert song to desired service: " ++ desiredService ++
          " / Conversion failures: " ++ errorSummaryOf failed)
      | some agg => do
        let mergedErrors := spreadObj aggErrors failed
        let agg :=
          if mergedErrors.isEmpty then eraseKey agg "conversionErrors"
          else setKey agg "conversionErrors" (.jobj mergedErrors)
        let agg :=
          if aggWarnings.isEmpty then eraseKey agg "conversionWarnings"
          else setKey agg "conversionWarnings" (.jobj aggWarnings)
        let (aggUp, st2) ← upsertSong st1 agg
        let convertedItem := (storeGet st2 inputSyncId).getD aggUp
        resolveOutcome st2 convertedItem failed desiredService now

/-- The value at a key after one `applyField`, as a function of the old value
at that key. -/
def fieldStepOpt (cfgk : Option MergeStrategy) (x : Option JVal) (v : JVal) : Option JVal :=
  match cfgk with
  | none => x
  | some strat => fieldStep strat x v

/-- Fold of the per-field step over a list of incoming values. -/
def fieldFold (cfgk : Option MergeStrategy) (x : Option JVal) (vs : List JVal) : Option JVal :=
  vs.foldl (fieldStepOpt cfgk) x

/-- The incoming values an object supplies for a key, in order. -/
def valuesAt (o : Obj) (k : String) : List JVal :=
  (o.filter fun kv => kv.1 == k).map (·.2)

/-- A concrete fan-out outcome family for the resolution analysis: the
desired catalog (spotify) reports success but supplies an empty external
ID, applemusic succeeds with its ID, and ytmusic surfaces nothing. -/
def invokeEmptyDesiredId : String → ConversionResult := fun s =>
  if s = "applemusic" then
    { service := s, success := true,
      data := some [("syncId", .jstr "sync-1"), ("title", .jstr "T"),
        ("artists", .jarr [.jstr "A"]),
        ("externalIds", .jobj [("AppleMusic", .jstr "am-1")])],
      usedFallback := false, error := none }
  else if s = "spotify" then
    { service := s, success := true,
      data := some [("syncId", .jstr "sync-1"),
        ("externalIds", .jobj [("Spotify", .jstr "")])],
      usedFallback := false, error := none }
  else
    { service := s, success := false, data := none, usedFallback := false, error := none }

/-- A concrete fan-out outcome family in which the desired catalog
(spotify) fails with a `not_found`-categorized error while applemusic
succeeds with its ID. -/
def invokeDesiredNotFound : String → ConversionResult := fun s =>
  if s = "applemusic" then
    { service := s, success := true,
      data := some [("syncId", .jstr "sync-1"), ("title", .jstr "T"),
        ("artists", .jarr [.jstr "A"]),
        ("externalIds", .jobj [("AppleMusic", .jstr "am-1")])],
      usedFallback := false, error := none }
  else if s = "spotify" then
    { service := s, success := false, data := none, usedFallback := false,
      error := some
        { service := s, timestamp := 5, errorType := (categorizeError "Song not found").1,
          message := "Song not found", retryable := (categorizeError "Song not found").2 } }
  else
    { service := s, success := false, data := none, usedFallback := false, error := none }

/-- Outcomes with every catalog idle (no success, no error surfaced). -/
def invokeAllIdle : String → ConversionResult := fun s =>
  { service := s, success := false, data := none, usedFallback := false, error := none }

/-!
Foundational lemmas: association lists, whitespace handling.
-/

theorem lookupF_setKey (o : Obj) (k : String) (v : JVal) (k' : String) :
    lookupF (setKey o k v) k' = if k' = k then some v else lookupF o k' := by
  induction o with
  | nil =>
    simp only [setKey, lookupF]
    by_cases h : k = k'
    · simp [h]
    · simp [h, Ne.symm h]
  | cons kv rest ih =>
    obtain ⟨k2, v2⟩ := kv
    simp only [setKey]
    by_cases h : k2 = k
    · subst h
      simp only [if_pos rfl, lookupF]
      by_cases h2 : k2 = k'
      · simp [h2]
      · simp [h2, Ne.symm h2]
    · simp only [if_neg h, lookupF]
      by_cases h2 : k2 = k'
      · subst h2
        simp [h]
      · simp [h2, ih]

theorem setKey_self (o : Obj) (k : String) (v : JVal) (h : lookupF o k = some v) :
    setKey o k v = o := by
  induction o with
  | nil => simp [lookupF] at h
  | cons kv rest ih =>
    obtain ⟨k2, v2⟩ := kv
    simp only [lookupF] at h
    simp only [setKey]
    by_cases h2 : k2 = k
    · simp only [if_pos h2] at h ⊢
      simp_all
    · simp only [if_neg h2] at h ⊢
      simp [ih h]

theorem lookupF_eraseKey (o : Obj) (k k' : String) :
    lookupF (eraseKey o k) k' = if k' = k then none else lookupF o k' := by
  induction o with
  | nil =>
    simp only [eraseKey, lookupF]
    split <;> rfl
  | cons kv rest ih =>
    obtain ⟨k2, v2⟩ := kv
    simp only [eraseKey]
    by_cases h : k2 = k
    · subst h
      rw [if_pos rfl, ih]
      by_cases h2 : k' = k2
      · simp [h2, lookupF]
      · simp [h2, lookupF, Ne.symm h2]
    · rw [if_neg h]
      simp only [lookupF]
      by_cases h2 : k2 = k'
      · subst h2
        simp [h]
      · simp [h2, ih]

theorem lookupF_eq_none_of_not_mem (o : Obj) (k : String) (h : k ∉ o.map Prod.fst) :
    lookupF o k = none := by
  induction o with
  | nil => rfl
  | cons kv rest ih =>
    obtain ⟨k2, v2⟩ := kv
    simp only [List.map_cons, List.mem_cons] at h
    push_neg at h
    simp only [lookupF, if_neg (fun hh : k2 = k => h.1 hh.symm), ih h.2]

theorem lookupF_of_mem_nodup (o : Obj) (k : String) (v : JVal)
    (hn : (o.map Prod.fst).Nodup) (hm : (k, v) ∈ o) : lookupF o k = some v := by
  induction o with
  | nil => simp at hm
  | cons kv rest ih =>
    obtain ⟨k2, v2⟩ := kv
    simp only [List.map_cons, List.nodup_cons] at hn
    simp only [List.mem_cons] at hm
    rcases hm with hm | hm
    · obtain ⟨h1, h2⟩ := Prod.mk.injEq .. ▸ hm
      simp [lookupF, h1.symm, h2]
    · have : k2 ≠ k := by
        intro hk
        exact hn.1 (hk ▸ (List.mem_map.2 ⟨(k, v), hm, rfl⟩))
      simp [lookupF, this, ih hn.2 hm]

theorem mem_keys_setKey (o : Obj) (k : String) (v : JVal) (k' : String)
    (h : k' ∈ (setKey o k v).map Prod.fst) : k' = k ∨ k' ∈ o.map Prod.fst := by
  induction o with
  | nil =>
    simp only [setKey, List.map_cons, List.map_nil, List.mem_singleton] at h
    exact Or.inl h
  | cons kv rest ih =>
    obtain ⟨k2, v2⟩ := kv
    simp only [setKey] at h
    by_cases h2 : k2 = k
    · simp only [if_pos h2, List.map_cons, List.mem_cons] at h
      rcases h with h | h
      · exact Or.inr (by simp [h])
      · exact Or.inr (by simp [h])
    · simp only [if_neg h2, List.map_cons, List.mem_cons] at h
      rcases h with h | h
      · exact Or.inr (by simp [h])
      · rcases ih h with h' | h'
        · exact Or.inl h'
        · exact Or.inr (by simp [h'])

theorem keys_setKey_nodup (o : Obj) (k : String) (v : JVal)
    (h : (o.map Prod.fst).Nodup) : ((setKey o k v).map Prod.fst).Nodup := by
  induction o with
  | nil => simp [setKey]
  | cons kv rest ih =>
    obtain ⟨k2, v2⟩ := kv
    simp only [List.map_cons, List.nodup_cons] at h
    simp only [setKey]
    by_cases h2 : k2 = k
    · simp only [if_pos h2, List.map_cons, List.nodup_cons]
      exact ⟨h.1, h.2⟩
    · simp only [if_neg h2, List.map_cons, List.nodup_cons]
      refine ⟨?_, ih h.2⟩
      intro hmem
      rcases mem_keys_setKey rest k v k2 hmem with h' | h'
      · exact h2 h'
      · exact h.1 h'

theorem storeGet_storeSet_self (st : Store) (sid : String) (r : Obj) :
    storeGet (storeSet st sid r) sid = some r := by
  induction st with
  | nil => simp [storeSet, storeGet]
  | cons kv rest ih =>
    obtain ⟨k, r2⟩ := kv
    simp only [storeSet]
    by_cases h : k = sid <;> simp_all [storeGet]

/-!
Whitespace facts.
-/

theorem not_isWsChar_of_isAlnumChar {c : Char} (h : isAlnumChar c = true) :
    isWsChar c = false := by
  simp only [isAlnumChar, Char.isAlpha, Char.isUpper, Char.isLower, Char.isDigit,
    Bool.or_eq_true, Bool.and_eq_true, decide_eq_true_eq, UInt32.le_def, BitVec.le_def] at h
  simp only [isWsChar, Bool.or_eq_false_iff, beq_eq_false_iff_ne, ne_eq, Char.toNat,
    UInt32.toNat]
  have e65 : ((65 : UInt32).toBitVec).toNat = 65 := rfl
  have e90 : ((90 : UInt32).toBitVec).toNat = 90 := rfl
  have e97 : ((97 : UInt32).toBitVec).toNat = 97 := rfl
  have e122 : ((122 : UInt32).toBitVec).toNat = 122 := rfl
  have e48 : ((48 : UInt32).toBitVec).toNat = 48 := rfl
  have e57 : ((57 : UInt32).toBitVec).toNat = 57 := rfl
  omega

theorem wordsOfF_forall (fuel : Nat) (s : List Char) :
    ∀ w ∈ wordsOfF fuel s, w ≠ [] ∧ ∀ c ∈ w, isWsChar c = false := by
  induction fuel generalizing s with
  | zero => simp [wordsOfF]
  | succ fuel ih =>
    match s with
    | [] => simp [wordsOfF]
    | c :: cs =>
      intro w hw
      rw [wordsOfF] at hw
      by_cases h : isWsChar c
      · rw [if_pos h] at hw
        exact ih cs w hw
      · rw [if_neg h] at hw
        simp only [List.mem_cons] at hw
        rcases hw with hw | hw
        · subst hw
          refine ⟨by simp, ?_⟩
          intro c2 hc2
          simp only [List.mem_cons] at hc2
          rcases hc2 with hc2 | hc2
          · subst hc2; simpa using h
          · have hp := List.mem_takeWhile_imp hc2
            simpa using hp
        · exact ih _ w hw

theorem wordsOf_forall (s : List Char) :
    ∀ w ∈ wordsOf s, w ≠ [] ∧ ∀ c ∈ w, isWsChar c = false :=
  wordsOfF_forall (s.length + 1) s

theorem joinWords_ne_nil (w : List Char) (rest : List (List Char)) (hw : w ≠ []) :
    joinWords (w :: rest) ≠ [] := by
  match rest with
  | [] => simpa [joinWords] using hw
  | w2 :: rs =>
    simp only [joinWords]
    obtain ⟨c, t, rfl⟩ := List.exists_cons_of_ne_nil hw
    simp

theorem joinWords_head? (ws : List (List Char))
    (h : ∀ w ∈ ws, w ≠ [] ∧ ∀ c ∈ w, isWsChar c = false) :
    ∀ c, (joinWords ws).head? = some c → isWsChar c = false := by
  match ws with
  | [] => simp [joinWords]
  | [w] =>
    intro c hc
    simp only [joinWords] at hc
    exact (h w (by simp)).2 c (List.mem_of_mem_head? hc)
  | w :: w2 :: rest =>
    intro c hc
    simp only [joinWords] at hc
    have hw := h w (by simp)
    obtain ⟨c2, t, rfl⟩ := List.exists_cons_of_ne_nil hw.1
    simp only [List.cons_append, List.head?_cons, Option.some.injEq] at hc
    cases hc
    exact hw.2 _ (List.mem_cons_self _ _)

theorem joinWords_getLast? (ws : List (List Char))
    (h : ∀ w ∈ ws, w ≠ [] ∧ ∀ c ∈ w, isWsChar c = false) :
    ∀ c, (joinWords ws).getLast? = some c → isWsChar c = false := by
  match ws with
  | [] => simp [joinWords]
  | [w] =>
    intro c hc
    simp only [joinWords] at hc
    exact (h w (by simp)).2 c (List.mem_of_getLast?_eq_some hc)
  | w :: w2 :: rest =>
    intro c hc
    have ih := joinWords_getLast? (w2 :: rest) (fun x hx => h x (by simp [hx]))
    have hne := joinWords_ne_nil w2 rest (h w2 (by simp)).1
    obtain ⟨x, hx⟩ : ∃ x, (joinWords (w2 :: rest)).getLast? = some x := by
      cases hx : (joinWords (w2 :: rest)).getLast? with
      | none => exact absurd (List.getLast?_eq_none_iff.1 hx) hne
      | some x => exact ⟨x, rfl⟩
    simp only [joinWords] at hc
    rw [show (w ++ ' ' :: joinWords (w2 :: rest)) =
        w ++ [' '] ++ joinWords (w2 :: rest) by simp] at hc
    rw [List.getLast?_append, hx, Option.or_some, Option.some.injEq] at hc
    exact ih c (hc ▸ hx)

theorem dropWhile_eq_self_of_head (p : Char → Bool) (l : List Char)
    (h : ∀ c, l.head? = some c → p c = false) : l.dropWhile p = l := by
  match l with
  | [] => rfl
  | c :: cs =>
    rw [List.dropWhile_cons, if_neg]
    simp [h c rfl]

theorem trimChars_eq_self (l : List Char)
    (hh : ∀ c, l.head? = some c → isWsChar c = false)
    (hl : ∀ c, l.getLast? = some c → isWsChar c = false) : trimChars l = l := by
  unfold trimChars
  rw [dropWhile_eq_self_of_head _ _ hh]
  rw [dropWhile_eq_self_of_head _ _ (fun c hc => hl c (by rwa [List.head?_reverse] at hc))]
  exact List.reverse_reverse l

theorem trimChars_collapseWhitespace (s : List Char) :
    trimChars (collapseWhitespace s) = collapseWhitespace s := by
  unfold collapseWhitespace
  exact trimChars_eq_self _ (joinWords_head? _ (wordsOf_forall s))
    (joinWords_getLast? _ (wordsOf_forall s))

/-!
Lemmas about `normalizeArtists`.
-/

theorem contains_iff_mem {α : Type} [BEq α] [LawfulBEq α] (l : List α) (a : α) :
    l.contains a = true ↔ a ∈ l := by
  simp [List.contains]

theorem collectArtists_some (l : List String) (h : ∀ a ∈ l, a ≠ "") :
    collectArtists l = some (l.flatMap fun a => pushedArtistsOf a) := by
  induction l with
  | nil => rfl
  | cons a rest ih =>
    simp only [collectArtists, if_neg (h a (by simp))]
    rw [ih (fun x hx => h x (by simp [hx]))]
    simp [List.flatMap_cons]

theorem collectArtists_none (l : List String) (h : "" ∈ l) : collectArtists l = none := by
  induction l with
  | nil => simp at h
  | cons a rest ih =>
    simp only [collectArtists]
    by_cases ha : a = ""
    · simp [ha]
    · simp only [if_neg ha]
      have : "" ∈ rest := by
        rcases List.mem_cons.1 h with h' | h'
        · exact absurd h'.symm ha
        · exact h'
      rw [ih this]
      rfl

theorem mem_pushedArtistsOf (s : String) (a : List Char) (h : a ∈ pushedArtistsOf s) :
    (∃ x, a = collapseWhitespace x) ∧ a ≠ [] := by
  unfold pushedArtistsOf at h
  obtain ⟨p, _, hp⟩ := List.mem_filterMap.1 h
  by_cases hc : collapseWhitespace (stripNonAlnum (removeFeatTail [' ']
      (List.map Char.toLower p))) = []
  · simp only [hc] at hp
    simp at hp
  · simp only [if_neg hc] at hp
    cases hp
    exact ⟨⟨_, rfl⟩, hc⟩

theorem dedupArtists_some (l seen : List (List Char)) (h : ∀ a ∈ l, trimChars a ≠ []) :
    ∃ r, dedupArtists l seen = some r := by
  induction l generalizing seen with
  | nil => exact ⟨[], rfl⟩
  | cons a rest ih =>
    simp only [dedupArtists, if_neg (h a (by simp))]
    by_cases hc : seen.contains (trimChars a)
    · simp only [if_pos hc]
      exact ih seen (fun x hx => h x (by simp [hx]))
    · simp only [if_neg hc]
      obtain ⟨r, hr⟩ := ih (trimChars a :: seen) (fun x hx => h x (by simp [hx]))
      exact ⟨trimChars a :: r, by rw [hr]; rfl⟩

theorem dedupArtists_none (l seen : List (List Char)) (a : List Char) (ha : a ∈ l)
    (h : trimChars a = []) : dedupArtists l seen = none := by
  induction l generalizing seen with
  | nil => simp at ha
  | cons b rest ih =>
    simp only [dedupArtists]
    by_cases hb : trimChars b = []
    · simp [hb]
    · simp only [if_neg hb]
      have hmem : a ∈ rest := by
        rcases List.mem_cons.1 ha with h' | h'
        · exact absurd (h' ▸ h) hb
        · exact h'
      by_cases hc : seen.contains (trimChars b)
      · simp only [if_pos hc]
        exact ih seen hmem
      · simp only [if_neg hc]
        rw [ih (trimChars b :: seen) hmem]
        rfl

theorem dedupArtists_spec (l : List (List Char)) :
    ∀ (seen r : List (List Char)), dedupArtists l seen = some r →
      r.Nodup ∧ (∀ x ∈ r, x ∉ seen) ∧
        (∀ x, x ∈ r ↔ ((∃ a ∈ l, trimChars a = x) ∧ x ∉ seen)) := by
  induction l with
  | nil =>
    intro seen r hr
    simp only [dedupArtists, Option.some.injEq] at hr
    subst hr
    simp
  | cons a rest ih =>
    intro seen r hr
    simp only [dedupArtists] at hr
    by_cases hb : trimChars a = []
    · simp [hb] at hr
    · simp only [if_neg hb] at hr
      by_cases hc : seen.contains (trimChars a)
      · simp only [if_pos hc] at hr
        obtain ⟨hnd, hns, hmem⟩ := ih seen r hr
        refine ⟨hnd, hns, fun x => ?_⟩
        rw [hmem x]
        constructor
        · rintro ⟨⟨b, hbm, hbe⟩, hxs⟩
          exact ⟨⟨b, by simp [hbm], hbe⟩, hxs⟩
        · rintro ⟨⟨b, hbm, hbe⟩, hxs⟩
          rcases List.mem_cons.1 hbm with h' | h'
          · exfalso
            apply hxs
            rw [← hbe, h']
            exact (contains_iff_mem ..).mp hc
          · exact ⟨⟨b, h', hbe⟩, hxs⟩
      · simp only [if_neg hc] at hr
        cases hdr : dedupArtists rest (trimChars a :: seen) with
        | none => rw [hdr] at hr; simp at hr
        | some r2 =>
          rw [hdr] at hr
          simp only [Option.map_some', Option.some.injEq] at hr
          subst hr
          obtain ⟨hnd, hns, hmem⟩ := ih _ r2 hdr
          have hta : trimChars a ∉ r2 := fun hmm => (hns _ hmm) (by simp)
          refine ⟨List.nodup_cons.2 ⟨hta, hnd⟩, ?_, ?_⟩
          · intro x hx
            rcases List.mem_cons.1 hx with h' | h'
            · subst h'
              intro hxx
              exact hc ((contains_iff_mem ..).mpr hxx)
            · intro hxx
              exact hns x h' (by simp [hxx])
          · intro x
            constructor
            · intro hx
              rcases List.mem_cons.1 hx with h' | h'
              · subst h'
                refine ⟨⟨a, by simp, rfl⟩, fun hxx => hc ((contains_iff_mem ..).mpr hxx)⟩
              · obtain ⟨⟨b, hbm, hbe⟩, hxs⟩ := (hmem x).1 h'
                refine ⟨⟨b, by simp [hbm], hbe⟩, ?_⟩
                intro hxx
                exact hxs (by simp [hxx])
            · rintro ⟨⟨b, hbm, hbe⟩, hxs⟩
              rcases List.mem_cons.1 hbm with h' | h'
              · exact List.mem_cons.2 (Or.inl (by rw [← hbe, h']))
              · by_cases hxa : x = trimChars a
                · exact List.mem_cons.2 (Or.inl hxa)
                · refine List.mem_cons.2 (Or.inr ((hmem x).2 ⟨⟨b, h', hbe⟩, ?_⟩))
                  simp only [List.mem_cons, not_or]
                  exact ⟨hxa, hxs⟩

/-!
Membership-preservation lemmas used for the non-emptiness of the
`normalizeTitle` fallback.
-/

theorem char_toNat_ofNat {n : Nat} (h : n.isValidChar) : (Char.ofNat n).toNat = n := by
  unfold Char.ofNat
  rw [dif_pos h]
  rfl

theorem isAlnumChar_iff (c : Char) : isAlnumChar c = true ↔
    (65 ≤ c.toNat ∧ c.toNat ≤ 90) ∨ (97 ≤ c.toNat ∧ c.toNat ≤ 122) ∨
      (48 ≤ c.toNat ∧ c.toNat ≤ 57) := by
  simp only [isAlnumChar, Char.isAlpha, Char.isUpper, Char.isLower, Char.isDigit,
    Bool.or_eq_true, Bool.and_eq_true, decide_eq_true_eq, UInt32.le_def, BitVec.le_def,
    Char.toNat, UInt32.toNat]
  have e65 : ((65 : UInt32).toBitVec).toNat = 65 := rfl
  have e90 : ((90 : UInt32).toBitVec).toNat = 90 := rfl
  have e97 : ((97 : UInt32).toBitVec).toNat = 97 := rfl
  have e122 : ((122 : UInt32).toBitVec).toNat = 122 := rfl
  have e48 : ((48 : UInt32).toBitVec).toNat = 48 := rfl
  have e57 : ((57 : UInt32).toBitVec).toNat = 57 := rfl
  omega

theorem isAlnumChar_toLower {c : Char} (h : isAlnumChar c = true) :
    isAlnumChar c.toLower = true := by
  unfold Char.toLower
  by_cases hc : c.toNat ≥ 65 ∧ c.toNat ≤ 90
  · rw [if_pos hc]
    have hv : Nat.isValidChar (c.toNat + 32) := Or.inl (by omega)
    have ht : (Char.ofNat (c.toNat + 32)).toNat = c.toNat + 32 := char_toNat_ofNat hv
    rw [isAlnumChar_iff, ht]
    omega
  · rw [if_neg hc]
    exact h

theorem exists_mem_wordsOfF (fuel : Nat) (s : List Char) (c : Char) (hc : c ∈ s)
    (hw : isWsChar c = false) (hf : s.length < fuel) : ∃ w ∈ wordsOfF fuel s, c ∈ w := by
  induction fuel generalizing s with
  | zero => omega
  | succ fuel ih =>
    match s with
    | [] => simp at hc
    | c2 :: cs =>
      rw [wordsOfF]
      by_cases h : isWsChar c2
      · rw [if_pos h]
        rcases List.mem_cons.1 hc with h' | h'
        · exact absurd (h' ▸ hw) (by simp [h])
        · exact ih cs h' (by simp at hf; omega)
      · rw [if_neg h]
        rcases List.mem_cons.1 hc with h' | h'
        · exact ⟨_, List.mem_cons_self _ _, by simp [h']⟩
        · rw [← List.takeWhile_append_dropWhile (p := fun x => !isWsChar x) (l := cs)] at h'
          rcases List.mem_append.1 h' with h2 | h2
          · exact ⟨_, List.mem_cons_self _ _, by simp [h2]⟩
          · have hlen : (cs.dropWhile fun x => !isWsChar x).length < fuel := by
              have := (List.dropWhile_sublist (l := cs) (p := fun x => !isWsChar x)).length_le
              simp only [List.length_cons] at hf
              omega
            obtain ⟨w, hwm, hcm⟩ := ih _ h2 hlen
            exact ⟨w, List.mem_cons_of_mem _ hwm, hcm⟩

theorem exists_mem_wordsOf (s : List Char) (c : Char) (hc : c ∈ s)
    (hw : isWsChar c = false) : ∃ w ∈ wordsOf s, c ∈ w :=
  exists_mem_wordsOfF (s.length + 1) s c hc hw (by omega)

theorem mem_joinWords (ws : List (List Char)) (w : List Char) (hw : w ∈ ws) (c : Char)
    (hc : c ∈ w) : c ∈ joinWords ws := by
  match ws with
  | [] => simp at hw
  | [w2] =>
    rw [List.mem_singleton.1 hw] at hc
    simpa [joinWords] using hc
  | w2 :: w3 :: rest =>
    simp only [joinWords]
    rcases List.mem_cons.1 hw with h' | h'
    · exact List.mem_append.2 (Or.inl (h' ▸ hc))
    · exact List.mem_append.2 (Or.inr (List.mem_cons_of_mem _
        (mem_joinWords (w3 :: rest) w h' c hc)))

theorem mem_dropWhile_of_not (p : Char → Bool) (l : List Char) (c : Char) (hc : c ∈ l)
    (hp : p c = false) : c ∈ l.dropWhile p := by
  induction l with
  | nil => simp at hc
  | cons a rest ih =>
    rw [List.dropWhile_cons]
    by_cases ha : p a = true
    · rw [if_pos ha]
      rcases List.mem_cons.1 hc with h' | h'
      · exact absurd (h' ▸ hp) (by simp [ha])
      · exact ih h'
    · rw [if_neg ha]
      exact hc

theorem trimChars_ne_nil (l : List Char) (c : Char) (hc : c ∈ l)
    (hw : isWsChar c = false) : trimChars l ≠ [] := by
  unfold trimChars
  intro hcon
  have h1 : c ∈ (l.dropWhile isWsChar) := mem_dropWhile_of_not _ _ _ hc hw
  have h2 : c ∈ (l.dropWhile isWsChar).reverse.dropWhile isWsChar :=
    mem_dropWhile_of_not _ _ _ (List.mem_reverse.2 h1) hw
  rw [List.reverse_eq_nil_iff.1 hcon] at h2
  simp at h2

/-- Claim C8 amended, supporting fact: lowercasing, whitespace collapse,
non-alphanumeric stripping and trimming keep at least one alphanumeric
character. -/
theorem fallback_ne_nil (s : String) (c : Char) (hc : c ∈ s.data)
    (ha : isAlnumChar c = true) : normalizeTitleFallback s ≠ [] := by
  unfold normalizeTitleFallback
  have h1 : c.toLower ∈ s.data.map Char.toLower := List.mem_map.2 ⟨c, hc, rfl⟩
  have ha2 : isAlnumChar c.toLower = true := isAlnumChar_toLower ha
  have hw2 : isWsChar c.toLower = false := not_isWsChar_of_isAlnumChar ha2
  obtain ⟨w, hwm, hcm⟩ := exists_mem_wordsOf _ c.toLower h1 hw2
  have h2 : c.toLower ∈ collapseWhitespace (s.data.map Char.toLower) :=
    mem_joinWords _ w hwm _ hcm
  have h3 : c.toLower ∈ stripNonAlnum (collapseWhitespace (s.data.map Char.toLower)) := by
    unfold stripNonAlnum
    refine List.mem_map.2 ⟨c.toLower, h2, ?_⟩
    rw [if_pos (by simp [ha2])]
  exact trimChars_ne_nil _ _ h3 hw2

/-!
Claims C8 and C9.
-/

/-- Claim C8, counterexample: the input `"!!!"` is non-empty, yet
`normalizeTitle` returns the empty string for it (the fallback strips every
character because none is alphanumeric), refuting the claim that
`normalizeTitle` never returns an empty string on non-empty input. -/
theorem claim_C8_counterexample :
    ("!!!" : String) ≠ "" ∧ normalizeTitle "!!!" = "" := by
  constructor
  · decide
  · rfl

/-- Claim C8, amended: if the aggressive cleanup of `normalizeTitle` is
empty, the function returns the less destructive fallback re-cleaning of the
original input; the result is non-empty for every input containing at least
one alphanumeric character (but an input consisting only of punctuation
produces the empty string). -/
theorem claim_C8 :
    (∀ s : String, s.data.any isAlnumChar = true → normalizeTitle s ≠ "") ∧
    (∀ s : String, normalizeTitleMain s = [] → normalizeTitle s = ⟨normalizeTitleFallback s⟩) := by
  constructor
  · intro s h
    obtain ⟨c, hc, ha⟩ := List.any_eq_true.1 h
    unfold normalizeTitle
    by_cases hm : normalizeTitleMain s = []
    · rw [if_pos hm]
      intro hcon
      have : normalizeTitleFallback s = [] := by
        have := congrArg String.data hcon
        simpa using this
      exact fallback_ne_nil s c hc ha this
    · rw [if_neg hm]
      intro hcon
      have : normalizeTitleMain s = [] := by
        have := congrArg String.data hcon
        simpa using this
      exact hm this
  · intro s h
    unfold normalizeTitle
    rw [if_pos h]

/-- Claim C8 witness: a concrete application of the amended claim. -/
theorem claim_C8_witness :
    (("Track - Remastered 2020" : String).data.any isAlnumChar = true ∧
      normalizeTitle "Track - Remastered 2020" ≠ "") ∧
    (normalizeTitleMain "(...)" = [] ∧
      normalizeTitle "(...)" = ⟨normalizeTitleFallback "(...)"⟩) :=
  ⟨⟨by decide, claim_C8.1 "Track - Remastered 2020" (by decide)⟩,
    ⟨by decide, claim_C8.2 "(...)" (by decide)⟩⟩

/-- Claim C9: `normalizeArtists` returns a deduplicated list when every
element is non-empty; a falsy (empty) element makes it return `undefined`
(`none`) through the early `return;`, and `generateSyncId` then throws
(`none`) instead of returning a hash. -/
theorem claim_C9 :
    (∀ l : List String, (∀ s ∈ l, s ≠ "") → ∃ r, normalizeArtists l = some r ∧ r.Nodup) ∧
    (∀ (l : List String) (t : String) (d : Int), "" ∈ l →
      normalizeArtists l = none ∧ generateSyncId t l d = none) := by
  constructor
  · intro l h
    have hcoll := collectArtists_some l h
    have hp : ∀ a ∈ l.flatMap fun a => pushedArtistsOf a, trimChars a ≠ [] := by
      intro a ha
      obtain ⟨s, _, hmem⟩ := List.mem_flatMap.1 ha
      obtain ⟨⟨x, hx⟩, hne⟩ := mem_pushedArtistsOf s a hmem
      rw [hx, trimChars_collapseWhitespace]
      exact hx ▸ hne
    obtain ⟨r, hr⟩ := dedupArtists_some _ [] hp
    obtain ⟨hnd, -, -⟩ := dedupArtists_spec _ [] r hr
    refine ⟨r.map fun cdata => (⟨cdata⟩ : String), ?_, ?_⟩
    · rw [normalizeArtists, hcoll, Option.some_bind, hr, Option.map_some']
    · exact hnd.map fun a b hab => congrArg String.data hab
  · intro l t d h
    have hn := collectArtists_none l h
    refine ⟨?_, ?_⟩
    · rw [normalizeArtists, hn]
      rfl
    · rw [generateSyncId, combinedCanonicalArtists, normalizeArtists, hn]
      rfl

/-- Claim C9 witness: concrete applications of both conjuncts. -/
theorem claim_C9_witness :
    ((∀ s ∈ (["Lexy", "A & B"] : List String), s ≠ "") ∧
      ∃ r, normalizeArtists ["Lexy", "A & B"] = some r ∧ r.Nodup) ∧
    (("" : String) ∈ (["ok", ""] : List String) ∧
      normalizeArtists ["ok", ""] = none ∧ generateSyncId "Song" ["ok", ""] 120 = none) :=
  ⟨⟨by decide, claim_C9.1 ["Lexy", "A & B"] (by decide)⟩,
    ⟨by decide, claim_C9.2 ["ok", ""] "Song" 120 (by decide)⟩⟩

/-!
Claim C1: duration bucketing.
-/

/-- Claim C1, counterexample: 186 s and 188 s do not fall in the same bucket
under `round(seconds / 5) * 5` (they bucket to 185 and 190), so the claimed
equality `generateSyncId("Song", ["Artist"], 186) =
generateSyncId("Song", ["Artist"], 188)` fails on the code. -/
theorem claim_C1_counterexample :
    bucketDuration 186 = 185 ∧ bucketDuration 188 = 190 ∧
    generateSyncId "Song" ["Artist"] 186 ≠ generateSyncId "Song" ["Artist"] 188 := by
  refine ⟨by decide, by decide, by decide⟩

/-- Claim C1, amended: durations with the same `round(seconds / 5) * 5`
bucket yield the same syncId for identical title and artists; concretely,
186 s and 187 s agree (both bucket to 185) and 186 s differs from 195 s —
while 188 s buckets to 190 and so differs from 186 s. -/
theorem claim_C1 :
    (∀ (title : String) (artists : List String) (d₁ d₂ : Int),
      bucketDuration d₁ = bucketDuration d₂ →
      generateSyncId title artists d₁ = generateSyncId title artists d₂) ∧
    generateSyncId "Song" ["Artist"] 186 = generateSyncId "Song" ["Artist"] 187 ∧
    generateSyncId "Song" ["Artist"] 186 ≠ generateSyncId "Song" ["Artist"] 195 := by
  refine ⟨?_, by decide, by decide⟩
  intro t a d₁ d₂ h
  unfold generateSyncId
  rw [h]

/-- Claim C1 witness: the bucket-equality hypothesis discharged at 184 s and
186 s. -/
theorem claim_C1_witness :
    bucketDuration 184 = bucketDuration 186 ∧
    generateSyncId "Song" ["Artist"] 184 = generateSyncId "Song" ["Artist"] 186 :=
  ⟨by decide, claim_C1.1 "Song" ["Artist"] 184 186 (by decide)⟩

/-!
Claim C4: the in-flight conversion map.
-/

theorem flightLookup_flightErase (m : FlightMap) (key : String) :
    flightLookup (flightErase m key) key = none := by
  induction m with
  | nil => rfl
  | cons kv rest ih =>
    obtain ⟨k2, v2⟩ := kv
    simp only [flightErase]
    by_cases h : k2 = key
    · simp [h, ih]
    · simp [flightLookup, h, ih]

/-- Claim C4: a second `unifiedConvert` invocation for a (type, syncId)
flight key whose conversion is in progress returns the registered in-flight
promise without starting a new conversion; a fresh invocation registers its
promise, making later invocations share it; and the settle-time cleanup
removes the entry for the key, so at most one conversion per key is in
flight at a time. -/
theorem claim_C4 (m : FlightMap) (key : String) (p fresh q : Nat) :
    (flightLookup m key = some p → withConversionFlight m key fresh = (m, p, false)) ∧
    (flightLookup m key = none →
      withConversionFlight m key fresh = ((key, fresh) :: m, fresh, true) ∧
      withConversionFlight ((key, fresh) :: m) key q = ((key, fresh) :: m, fresh, false) ∧
      flightLookup (flightCleanup ((key, fresh) :: m) key fresh) key = none) ∧
    (flightLookup m key = some p → flightLookup (flightCleanup m key p) key = none) := by
  refine ⟨?_, ?_, ?_⟩
  · intro h
    simp [withConversionFlight, h]
  · intro h
    refine ⟨by simp [withConversionFlight, h], ?_, ?_⟩
    · simp [withConversionFlight, flightLookup]
    · have hl : flightLookup ((key, fresh) :: m) key = some fresh := by
        simp [flightLookup]
      simp only [flightCleanup, hl, if_pos rfl]
      exact flightLookup_flightErase _ key
  · intro h
    simp only [flightCleanup, h, if_pos rfl]
    exact flightLookup_flightErase m key

/-- Claim C4 witness: the behavior at a concrete map, key and promises. -/
theorem claim_C4_witness :
    (flightLookup [("song:abc", 7)] "song:abc" = some 7 ∧
      withConversionFlight [("song:abc", 7)] "song:abc" 9 = ([("song:abc", 7)], 7, false)) ∧
    (flightLookup [] "song:abc" = none ∧
      withConversionFlight [] "song:abc" 9 = ([("song:abc", 9)], 9, true)) ∧
    flightLookup (flightCleanup [("song:abc", 7)] "song:abc" 7) "song:abc" = none :=
  ⟨⟨by decide, (claim_C4 [("song:abc", 7)] "song:abc" 7 9 11).1 (by decide)⟩,
    ⟨by decide, ((claim_C4 [] "song:abc" 7 9 11).2.1 (by decide)).1⟩,
    (claim_C4 [("song:abc", 7)] "song:abc" 7 9 11).2.2 (by decide)⟩

/-!
Claim C2: the externalIds merge.
-/

/-- Claim C2, counterexample: merging an incoming record whose
`externalIds` carries a value for a catalog key the stored record already
holds a non-empty value for replaces the stored value (the `merge_objects`
shallow spread lets incoming keys override), refuting "an incoming value
never overwrites an existing non-empty value". -/
theorem claim_C2_counterexample :
    lookupF (objFields (mergeData [("externalIds", .jobj [("Spotify", .jstr "sp-old")])]
        [("externalIds", .jobj [("Spotify", .jstr "sp-new")])] songMergeConfig) "externalIds")
      "Spotify" = some (.jstr "sp-new") ∧
    truthy (.jstr "sp-old") = true ∧ (JVal.jstr "sp-old") ≠ .jstr "sp-new" ∧
    songMergeConfig "externalIds" = some .merge_objects :=
  ⟨by decide, by decide, by decide, rfl⟩

theorem spreadObj_keys_nodup (n e : Obj) (he : (e.map Prod.fst).Nodup) :
    ((spreadObj e n).map Prod.fst).Nodup := by
  induction n generalizing e with
  | nil => exact he
  | cons kv rest ih =>
    exact ih _ (keys_setKey_nodup e kv.1 kv.2 he)

theorem spreadObj_lookup (n e : Obj) (hn : (n.map Prod.fst).Nodup) (k : String) :
    lookupF (spreadObj e n) k = (lookupF n k).orElse fun _ => lookupF e k := by
  induction n generalizing e with
  | nil => rfl
  | cons kv rest ih =>
    obtain ⟨k0, v0⟩ := kv
    simp only [List.map_cons, List.nodup_cons] at hn
    have step : spreadObj e ((k0, v0) :: rest) = spreadObj (setKey e k0 v0) rest := rfl
    rw [step, ih (setKey e k0 v0) hn.2 ]
    by_cases h : k = k0
    · subst h
      have : lookupF rest k = none :=
        lookupF_eq_none_of_not_mem rest k hn.1
      simp [lookupF, this, lookupF_setKey]
    · simp [lookupF, Ne.symm h, h, lookupF_setKey]

/-- Claim C2, amended: for `externalIds` the merge engine applies the
`merge_objects` strategy, a shallow spread `{ ...existing, ...incoming }`:
the merged map is the union of the two maps with the incoming value
overriding the existing one on a shared catalog key (never the other way
around), and it holds at most one binding per catalog key. -/
theorem claim_C2 :
    (∀ e n : Obj,
      fieldStep .merge_objects (some (.jobj e)) (.jobj n) = some (.jobj (spreadObj e n))) ∧
    (∀ e n : Obj, (e.map Prod.fst).Nodup → (n.map Prod.fst).Nodup →
      ((spreadObj e n).map Prod.fst).Nodup ∧
      ∀ k, lookupF (spreadObj e n) k = (lookupF n k).orElse fun _ => lookupF e k) ∧
    songMergeConfig "externalIds" = some .merge_objects := by
  refine ⟨fun e n => rfl, fun e n he hn => ⟨spreadObj_keys_nodup n e he, spreadObj_lookup n e hn⟩, rfl⟩

/-- Claim C2 witness: the amended union law at concrete maps. -/
theorem claim_C2_witness :
    ((([("Spotify", JVal.jstr "a")] : Obj).map Prod.fst).Nodup ∧
      (([("Spotify", JVal.jstr "b"), ("YouTube", JVal.jstr "y")] : Obj).map Prod.fst).Nodup) ∧
    lookupF (spreadObj [("Spotify", JVal.jstr "a")]
      [("Spotify", JVal.jstr "b"), ("YouTube", JVal.jstr "y")]) "Spotify" =
        some (.jstr "b") := by
  refine ⟨⟨by decide, by decide⟩, ?_⟩
  rw [(claim_C2.2.1 [("Spotify", JVal.jstr "a")]
    [("Spotify", JVal.jstr "b"), ("YouTube", JVal.jstr "y")] (by decide) (by decide)).2 "Spotify"]
  decide

/-!
Per-key characterization of `mergeData`: the value a key holds after the
merge is a fold of the per-field step over the incoming values at that key.
-/

theorem fieldStep_eq_none (strat : MergeStrategy) (x : Option JVal) (v : JVal)
    (h : fieldStep strat x v = none) : x = none := by
  cases strat with
  | overwrite => simp [fieldStep] at h
  | keep_existing =>
    unfold fieldStep at h
    by_cases hx : isNullish x
    · simp [hx] at h
    · simpa [hx] using h
  | prefer_new =>
    unfold fieldStep at h
    by_cases hv : v = .jnull
    · simpa [hv] using h
    · simp [hv] at h
  | merge_objects =>
    unfold fieldStep at h
    rcases x with _ | x <;> rcases v <;> simp_all
    cases x <;> simp_all
  | combine_unique_primitives =>
    unfold fieldStep at h
    rcases x with _ | x <;> rcases v <;> simp_all
    cases x <;> simp_all
  | combine_unique_objects uk =>
    unfold fieldStep at h
    rcases uk with _ | u
    · simp_all
    · rcases x with _ | x <;> rcases v <;> simp_all
      cases x <;> simp_all
  | custom f =>
    unfold fieldStep at h
    rcases f with _ | fn
    · exact h
    · simp at h

theorem lookupF_applyField (cfg : MergeConfig) (m : Obj) (k : String) (v : JVal) (k' : String) :
    lookupF (applyField cfg m k v) k' =
      if k' = k then fieldStepOpt (cfg k) (lookupF m k) v else lookupF m k' := by
  unfold applyField fieldStepOpt
  cases hc : cfg k with
  | none =>
    by_cases h : k' = k <;> simp [h]
  | some strat =>
    cases hf : fieldStep strat (lookupF m k) v with
    | none =>
      have hx := fieldStep_eq_none strat _ v hf
      simp only [hf]
      by_cases h : k' = k <;> simp [h, hx]
    | some nv =>
      simp only [hf]
      rw [lookupF_setKey]

theorem lookupF_mergeData (cfg : MergeConfig) (E N : Obj) (k : String) :
    lookupF (mergeData E N cfg) k = fieldFold (cfg k) (lookupF E k) (valuesAt N k) := by
  induction N generalizing E with
  | nil => rfl
  | cons kv rest ih =>
    obtain ⟨k0, v0⟩ := kv
    have hstep : mergeData E ((k0, v0) :: rest) cfg =
        mergeData (applyField cfg E k0 v0) rest cfg := rfl
    rw [hstep, ih]
    by_cases h : k0 = k
    · subst h
      rw [lookupF_applyField]
      simp [valuesAt, fieldFold, List.filter_cons]
    · rw [lookupF_applyField]
      simp [valuesAt, fieldFold, List.filter_cons, h, Ne.symm h]

theorem fieldFold_append (c : Option MergeStrategy) (x : Option JVal) (vs ws : List JVal) :
    fieldFold c x (vs ++ ws) = fieldFold c (fieldFold c x vs) ws := by
  simp [fieldFold, List.foldl_append]

theorem valuesAt_eq_nil (o : Obj) (k : String) (h : k ∉ o.map Prod.fst) :
    valuesAt o k = [] := by
  unfold valuesAt
  have hf : o.filter (fun kv => kv.1 == k) = [] := by
    apply List.filter_eq_nil_iff.mpr
    intro kv hkv
    simp only [beq_iff_eq]
    intro he
    exact h (he ▸ List.mem_map_of_mem Prod.fst hkv)
  rw [hf]
  rfl

/-!
Claim C6: order-insensitivity of `mergeData` across incoming records.
-/

/-- Claim C6 counterexample: under the `prefer_new` strategy (field
`explicit` of `songMergeConfig`, which is not `custom`), the merge outcome
depends on which incoming record is applied first: the later non-null value
always wins. -/
theorem claim_C6_counterexample :
    mergeData (mergeData [] [("explicit", .jbool true)] songMergeConfig)
        [("explicit", .jbool false)] songMergeConfig ≠
      mergeData (mergeData [] [("explicit", .jbool false)] songMergeConfig)
        [("explicit", .jbool true)] songMergeConfig := by
  decide

/-- Claim C6 (amended): `mergeData` applies each configured field as a fold
over the incoming values for that key, so when the two incoming records A
and B touch disjoint key sets, merging A then B and merging B then A agree
at every key.  Without that disjointness the outcome is order-dependent
even for non-`custom` strategies (see the counterexample). -/
theorem claim_C6 (cfg : MergeConfig) (E A B : Obj)
    (hdisj : ∀ k ∈ A.map Prod.fst, k ∉ B.map Prod.fst) (k : String) :
    lookupF (mergeData (mergeData E A cfg) B cfg) k =
      lookupF (mergeData (mergeData E B cfg) A cfg) k := by
  rw [lookupF_mergeData, lookupF_mergeData, lookupF_mergeData, lookupF_mergeData,
    ← fieldFold_append, ← fieldFold_append]
  by_cases hA : k ∈ A.map Prod.fst
  · rw [valuesAt_eq_nil B k (hdisj k hA)]
    simp
  · rw [valuesAt_eq_nil A k hA]
    simp

/-- Claim C6 witness: two incoming records with disjoint keys commute at the
key `title`. -/
theorem claim_C6_witness :
    (∀ k ∈ ([("title", JVal.jstr "t")] : Obj).map Prod.fst,
        k ∉ ([("artists", JVal.jarr [JVal.jstr "x"])] : Obj).map Prod.fst) ∧
    lookupF (mergeData (mergeData [] [("title", .jstr "t")] songMergeConfig)
        [("artists", .jarr [.jstr "x"])] songMergeConfig) "title" =
      lookupF (mergeData (mergeData [] [("artists", .jarr [.jstr "x"])] songMergeConfig)
        [("title", .jstr "t")] songMergeConfig) "title" :=
  ⟨by decide, claim_C6 songMergeConfig [] [("title", .jstr "t")]
      [("artists", .jarr [.jstr "x"])] (by decide) "title"⟩

theorem isNullish_some_iff (v : JVal) : isNullish (some v) = true ↔ v = .jnull := by
  cases v <;> simp [isNullish]

theorem lookupF_mem (o : Obj) (k : String) (v : JVal) (h : lookupF o k = some v) :
    (k, v) ∈ o := by
  induction o with
  | nil => simp [lookupF] at h
  | cons kv rest ih =>
    obtain ⟨k0, v0⟩ := kv
    unfold lookupF at h
    by_cases hk : k0 = k
    · rw [if_pos hk] at h
      cases h
      exact hk ▸ List.mem_cons_self _ _
    · rw [if_neg hk] at h
      exact List.mem_cons_of_mem _ (ih h)

theorem exists_lookupF_of_mem (o : Obj) (k : String) (h : k ∈ o.map Prod.fst) :
    ∃ v, lookupF o k = some v := by
  induction o with
  | nil => simp at h
  | cons kv rest ih =>
    obtain ⟨k0, v0⟩ := kv
    by_cases hk : k0 = k
    · exact ⟨v0, by simp [lookupF, hk]⟩
    · have : k ∈ rest.map Prod.fst := by
        rcases List.mem_cons.mp h with h1 | h1
        · exact absurd h1.symm hk
        · exact h1
      obtain ⟨v, hv⟩ := ih this
      exact ⟨v, by simp [lookupF, hk, hv]⟩

theorem valuesAt_cons (k0 : String) (v0 : JVal) (rest : Obj) (k : String) :
    valuesAt ((k0, v0) :: rest) k =
      if k0 = k then v0 :: valuesAt rest k else valuesAt rest k := by
  by_cases h : k0 = k <;> simp [valuesAt, List.filter_cons, h]

theorem valuesAt_of_nodup (o : Obj) (hnd : (o.map Prod.fst).Nodup) (k : String) (v : JVal)
    (h : lookupF o k = some v) : valuesAt o k = [v] := by
  induction o with
  | nil => simp [lookupF] at h
  | cons kv rest ih =>
    obtain ⟨k0, v0⟩ := kv
    rw [valuesAt_cons]
    unfold lookupF at h
    rw [List.map_cons] at hnd
    by_cases hk : k0 = k
    · subst hk
      rw [if_pos rfl] at h ⊢
      cases h
      rw [valuesAt_eq_nil rest k0 (List.nodup_cons.mp hnd).1]
    · rw [if_neg hk] at h ⊢
      exact ih (List.nodup_cons.mp hnd).2 h

theorem keepFold_of_not_nullish (z : Option JVal) (vs : List JVal)
    (h : isNullish z = false) : fieldFold (some .keep_existing) z vs = z := by
  induction vs with
  | nil => rfl
  | cons v rest ih =>
    show fieldFold (some .keep_existing) (fieldStepOpt (some .keep_existing) z v) rest = z
    have hstep : fieldStepOpt (some .keep_existing) z v = z := by
      simp [fieldStepOpt, fieldStep, h]
    rw [hstep]
    exact ih

theorem keepFold_all_null (z : Option JVal) (vs : List JVal) (hz : isNullish z = true)
    (hall : ∀ v ∈ vs, v = .jnull) :
    fieldFold (some .keep_existing) z vs = if vs.isEmpty then z else some .jnull := by
  induction vs generalizing z with
  | nil => rfl
  | cons v rest ih =>
    have hv : v = .jnull := hall v (List.mem_cons_self _ _)
    have hstep : fieldStepOpt (some .keep_existing) z v = some .jnull := by
      simp [fieldStepOpt, fieldStep, hz, hv]
    show fieldFold (some .keep_existing) (fieldStepOpt (some .keep_existing) z v) rest =
      if (v :: rest).isEmpty then z else some .jnull
    rw [hstep]
    have := ih (some .jnull) rfl (fun w hw => hall w (List.mem_cons_of_mem _ hw))
    cases rest <;> simpa using this

theorem keepFold_nullish_inv (x : Option JVal) (vs : List JVal)
    (h : isNullish (fieldFold (some .keep_existing) x vs) = true) :
    isNullish x = true ∧ ∀ v ∈ vs, v = .jnull := by
  induction vs generalizing x with
  | nil => exact ⟨h, by simp⟩
  | cons v rest ih =>
    have h' : isNullish
        (fieldFold (some .keep_existing) (fieldStepOpt (some .keep_existing) x v) rest)
          = true := h
    obtain ⟨hstep, hrest⟩ := ih _ h'
    by_cases hx : isNullish x = true
    · have hs : fieldStepOpt (some .keep_existing) x v = some v := by
        simp [fieldStepOpt, fieldStep, hx]
      rw [hs] at hstep
      have hv : v = .jnull := (isNullish_some_iff v).mp hstep
      refine ⟨hx, fun w hw => ?_⟩
      rcases List.mem_cons.mp hw with h1 | h1
      · exact h1 ▸ hv
      · exact hrest w h1
    · have hs : fieldStepOpt (some .keep_existing) x v = x := by
        simp [fieldStepOpt, fieldStep, Bool.eq_false_iff.mpr hx]
      rw [hs] at hstep
      exact absurd hstep hx

theorem keepFold_some_of_ne_nil (vs : List JVal) (x : Option JVal) (h : vs ≠ []) :
    ∃ w, fieldFold (some .keep_existing) x vs = some w := by
  induction vs generalizing x with
  | nil => exact absurd rfl h
  | cons v rest ih =>
    show ∃ w, fieldFold (some .keep_existing) (fieldStepOpt (some .keep_existing) x v) rest
      = some w
    cases rest with
    | nil =>
      by_cases hx : isNullish x = true
      · exact ⟨v, by simp [fieldFold, fieldStepOpt, fieldStep, hx]⟩
      · cases x with
        | none => exact absurd rfl hx
        | some w =>
          exact ⟨w, by simp [fieldFold, fieldStepOpt, fieldStep, Bool.eq_false_iff.mpr hx]⟩
    | cons v2 rest2 => exact ih _ (by simp)

theorem keepFold_idem (x : Option JVal) (vs ws : List JVal) :
    fieldFold (some .keep_existing) (fieldFold (some .keep_existing) x (vs ++ ws)) vs =
      fieldFold (some .keep_existing) x (vs ++ ws) := by
  cases hz : isNullish (fieldFold (some .keep_existing) x (vs ++ ws)) with
  | false => exact keepFold_of_not_nullish _ vs hz
  | true =>
    obtain ⟨hx, hall⟩ := keepFold_nullish_inv x (vs ++ ws) hz
    have hvs : ∀ v ∈ vs, v = .jnull := fun v hv => hall v (List.mem_append_left _ hv)
    rw [keepFold_all_null _ vs hz hvs]
    cases hv : vs with
    | nil => simp
    | cons v rest =>
      obtain ⟨w, hw⟩ := keepFold_some_of_ne_nil (vs ++ ws) x (by simp [hv])
      have hwj : w = .jnull := by
        rw [hw] at hz
        exact (isNullish_some_iff w).mp hz
      rw [hv] at hw
      rw [hw]
      simp [hwj]

/-!
Claim C7: merge idempotence.
-/

/-- Claim C7 counterexample: self-merge is not the identity under the
`combine_unique_primitives` strategy — a stored record whose `artists`
array contains a duplicate is rewritten by `mergeData(E, E, songMergeConfig)`
to the deduplicated array, so the result is not equal to `E`. -/
theorem claim_C7_counterexample :
    mergeData [("artists", .jarr [.jstr "a", .jstr "a"])]
        [("artists", .jarr [.jstr "a", .jstr "a"])] songMergeConfig ≠
      [("artists", .jarr [.jstr "a", .jstr "a"])] := by
  decide

/-- Claim C7 (amended): (i) if the record's keys are distinct and each of
its bindings is diagonal-stable for its configured strategy (which holds
unconditionally for `overwrite`, `keep_existing`, `prefer_new` and the
`imageUrlMerge` custom rule, and holds for the combine strategies exactly
when the stored array carries no duplicate), then merging the record into
itself leaves every field unchanged; (ii) on fields configured
`keep_existing`, merging A then B then A again equals merging A then B
once, at every key. -/
theorem claim_C7 (cfg : MergeConfig) (E A B F : Obj)
    (hnodup : (E.map Prod.fst).Nodup)
    (hdiag : ∀ kv ∈ E, fieldStepOpt (cfg kv.1) (some kv.2) kv.2 = some kv.2)
    (hkeep : ∀ k ∈ A.map Prod.fst, cfg k = some .keep_existing) :
    (∀ k, lookupF (mergeData E E cfg) k = lookupF E k) ∧
    (∀ k, lookupF (mergeData (mergeData (mergeData F A cfg) B cfg) A cfg) k =
        lookupF (mergeData (mergeData F A cfg) B cfg) k) := by
  constructor
  · intro k
    simp only [lookupF_mergeData]
    by_cases hk : k ∈ E.map Prod.fst
    · obtain ⟨v, hv⟩ := exists_lookupF_of_mem E k hk
      rw [hv, valuesAt_of_nodup E hnodup k v hv]
      simpa [fieldFold] using hdiag (k, v) (lookupF_mem E k v hv)
    · rw [valuesAt_eq_nil E k hk, lookupF_eq_none_of_not_mem E k hk]
      rfl
  · intro k
    simp only [lookupF_mergeData]
    by_cases hk : k ∈ A.map Prod.fst
    · rw [hkeep k hk,
        ← fieldFold_append (some .keep_existing) (lookupF F k) (valuesAt A k) (valuesAt B k)]
      exact keepFold_idem _ _ _
    · rw [valuesAt_eq_nil A k hk]
      rfl

/-- Claim C7 witness: a clean song record (distinct keys, no duplicate
array content) self-merges to itself at every key, and reapplying a
`keep_existing` record after a second merge changes nothing. -/
theorem claim_C7_witness :
    (∀ k, lookupF (mergeData
        [("title", .jstr "T"), ("externalIds", .jobj [("Spotify", .jstr "sp-1")])]
        [("title", .jstr "T"), ("externalIds", .jobj [("Spotify", .jstr "sp-1")])]
        songMergeConfig) k =
      lookupF [("title", .jstr "T"), ("externalIds", .jobj [("Spotify", .jstr "sp-1")])] k) ∧
    (∀ k, lookupF (mergeData (mergeData (mergeData
          [("title", .jstr "T"), ("externalIds", .jobj [("Spotify", .jstr "sp-1")])]
          [("title", .jstr "A-title")] songMergeConfig)
          [("title", .jstr "B-title")] songMergeConfig)
          [("title", .jstr "A-title")] songMergeConfig) k =
      lookupF (mergeData (mergeData
          [("title", .jstr "T"), ("externalIds", .jobj [("Spotify", .jstr "sp-1")])]
          [("title", .jstr "A-title")] songMergeConfig)
          [("title", .jstr "B-title")] songMergeConfig) k) :=
  claim_C7 songMergeConfig
    [("title", .jstr "T"), ("externalIds", .jobj [("Spotify", .jstr "sp-1")])]
    [("title", .jstr "A-title")] [("title", .jstr "B-title")]
    [("title", .jstr "T"), ("externalIds", .jobj [("Spotify", .jstr "sp-1")])]
    (by decide) (by decide)
    (by intro k hk
        simp only [List.map, List.mem_singleton] at hk
        subst hk
        rfl)

/-!
Claim C5: partial success and the desired-catalog error entry.
-/

/-- Claim C5 counterexample: with the desired catalog reporting success but
an empty external ID, the conversion resolves a record that has a truthy
AppleMusic ID and no truthy Spotify ID, returns it successfully — and
carries NO `conversionErrors` entry for the desired catalog: the entry
`resolveOutcome` adds is dropped by the merge-based upsert because
`conversionErrors` is not a configured field of `songMergeConfig`. -/
theorem claim_C5_counterexample :
    (executeUnifiedConvert [] [("syncId", .jstr "sync-1")] "spotify"
        invokeEmptyDesiredId invokeAllIdle 0).toOption.map
      (fun p => (truthyOpt (lookupF (objFields p.1 "externalIds") "AppleMusic"),
        truthyOpt (lookupF (objFields p.1 "externalIds") "Spotify"),
        lookupF (objFields p.1 "conversionErrors") "spotify")) =
      some (true, false, none) := by
  decide

/-- Claim C5 (amended): partial success (some catalog's ID present, the
desired one missing) is returned successfully, and the desired-catalog
error entry is present in the returned record when it was already logged on
the resolved record (as happens when the desired catalog's search failed —
but not when the entry still has to be added at resolution time, see the
counterexample); in the fresh-store scenario where the desired catalog
fails with a `not_found`-categorized error, the returned record carries the
other catalog's ID and an entry with `retryable:false`. -/
theorem claim_C5 (st : Store) (item failed : Obj) (desired : String) (now : Nat)
    (hmiss : truthyOpt (lookupF (objFields item "externalIds")
      (externalIdKeyOf desired)) = false)
    (hsome : (((objFields item "externalIds").filter
      fun kv => truthy kv.2).map (·.1)).isEmpty = false)
    (hlogged : truthyOpt (lookupF (objFields item "conversionErrors") desired) = true) :
    (resolveOutcome st item failed desired now = .ok (item, st) ∧
      lookupF (objFields item "conversionErrors") desired ≠ none) ∧
    categorizeError "Song not found" = ("not_found", false) ∧
    (executeUnifiedConvert [] [("syncId", .jstr "sync-1")] "spotify"
        invokeDesiredNotFound invokeAllIdle 9).toOption.map
      (fun p => (truthyOpt (lookupF (objFields p.1 "externalIds") "AppleMusic"),
        lookupF (objFields p.1 "conversionErrors") "spotify")) =
      some (true, some (historyObj 5 1 "Song not found" false)) := by
  refine ⟨⟨?_, ?_⟩, by decide, by decide⟩
  · simp [resolveOutcome, hmiss, hsome, hlogged]
  · intro hnone
    rw [hnone] at hlogged
    simp [truthyOpt] at hlogged

/-- Claim C5 witness: a record with an AppleMusic ID, no Spotify ID and a
logged spotify failure resolves successfully with the entry present. -/
theorem claim_C5_witness :
    resolveOutcome [] [("externalIds", .jobj [("AppleMusic", .jstr "am-1")]),
        ("conversionErrors", .jobj [("spotify", historyObj 1 1 "Song not found" false)])]
      [] "spotify" 0 =
      .ok ([("externalIds", .jobj [("AppleMusic", .jstr "am-1")]),
        ("conversionErrors", .jobj [("spotify", historyObj 1 1 "Song not found" false)])],
        []) ∧
    lookupF (objFields [("externalIds", .jobj [("AppleMusic", .jstr "am-1")]),
        ("conversionErrors", .jobj [("spotify", historyObj 1 1 "Song not found" false)])]
      "conversionErrors") "spotify" ≠ none := by
  have h := claim_C5 [] [("externalIds", .jobj [("AppleMusic", .jstr "am-1")]),
      ("conversionErrors", .jobj [("spotify", historyObj 1 1 "Song not found" false)])]
    [] "spotify" 0 (by decide) (by decide) (by decide)
  exact ⟨h.1.1, h.1.2⟩

/-!
Claim C10: `Database.upsertSong` persists the normalized forms.
-/

/-- Claim C10: for a song input with a non-empty (string) title, an artists
array of strings and a fresh syncId, `upsertSong` replaces the title by its
`normalizeForSearch` form and the artists by the separator-split plus
title-extracted list of `normalizeSongData` before the merge-based upsert,
so the persisted record carries the normalized forms. -/
theorem claim_C10 (st : Store) (song : Obj) (t sid : String) (vs : List JVal)
    (arts : List String)
    (ht : lookupF song "title" = some (.jstr t)) (htne : t ≠ "")
    (hart : lookupF song "artists" = some (.jarr vs)) (hstr : strList vs = some arts)
    (hsid : lookupF song "syncId" = some (.jstr sid)) (hsne : sid ≠ "")
    (hnew : storeGet st sid = none) :
    ∃ r st2, upsertSong st song = .ok (r, st2) ∧
      lookupF r "title" = some (.jstr (normalizeForSearch t)) ∧
      lookupF r "artists" = some (.jarr ((normalizeSongData t arts).2.map .jstr)) ∧
      (normalizeSongData t arts).1 = normalizeForSearch t ∧
      storeGet st2 sid = some r := by
  have hd : upsertSong st song = upsertEntity st
      (setKey (setKey song "title" (.jstr (normalizeSongData t arts).1)) "artists"
        (.jarr ((normalizeSongData t arts).2.map .jstr))) songMergeConfig := by
    unfold upsertSong
    rw [ht]
    simp only [if_neg htne, hart, hstr]
  set sd := setKey (setKey song "title" (.jstr (normalizeSongData t arts).1)) "artists"
    (.jarr ((normalizeSongData t arts).2.map .jstr)) with hsd
  have hsd_sid : lookupF sd "syncId" = some (.jstr sid) := by
    rw [hsd, lookupF_setKey, if_neg (by decide), lookupF_setKey, if_neg (by decide), hsid]
  have he : upsertEntity st sd songMergeConfig = .ok (sd, storeSet st sid sd) := by
    unfold upsertEntity
    rw [hsd_sid]
    simp only [truthyOpt, truthy, hsne]
    rw [hnew]
    simp [hsne]
  refine ⟨sd, storeSet st sid sd, by rw [hd, he], ?_, ?_, rfl, storeGet_storeSet_self st sid sd⟩
  · rw [hsd, lookupF_setKey, if_neg (by decide), lookupF_setKey, if_pos rfl]
    rfl
  · rw [hsd, lookupF_setKey, if_pos rfl]

/-- Claim C10 witness: a concrete upsert with a feat-styled title; the
persisted title is the search-normalized form and the artists are the
split-and-extracted list, not the caller-provided values. -/
theorem claim_C10_witness :
    (∃ r st2,
      upsertSong [] [("syncId", .jstr "s2"), ("title", .jstr "Hello (feat. Alice)"),
        ("artists", .jarr [.jstr "Bob, Carol"])] = .ok (r, st2) ∧
      lookupF r "title" = some (.jstr (normalizeForSearch "Hello (feat. Alice)")) ∧
      lookupF r "artists" =
        some (.jarr ((normalizeSongData "Hello (feat. Alice)" ["Bob, Carol"]).2.map .jstr)) ∧
      (normalizeSongData "Hello (feat. Alice)" ["Bob, Carol"]).1 =
        normalizeForSearch "Hello (feat. Alice)" ∧
      storeGet st2 "s2" = some r) ∧
    normalizeForSearch "Hello (feat. Alice)" = "Hello (" ∧
    (normalizeSongData "Hello (feat. Alice)" ["Bob, Carol"]).2 = ["Bob", "Carol", "Alice"] :=
  ⟨claim_C10 [] [("syncId", .jstr "s2"), ("title", .jstr "Hello (feat. Alice)"),
      ("artists", .jarr [.jstr "Bob, Carol"])] "Hello (feat. Alice)" "s2"
      [.jstr "Bob, Carol"] ["Bob, Carol"] rfl (by decide) rfl rfl rfl (by decide) rfl,
    by decide, by decide⟩

/-!
Claim C3: determinism and artist-order invariance of `generateSyncId`.
The comparator theory below establishes that `sortAlphaNum` induces a total
preorder (symmetric-by-swap, transitive at the non-strict level), which is
antisymmetric only up to collation-key equality — distinct strings such as
"02" and "2" compare equal.
-/

theorem natCompare_swap (m n : Nat) : compare m n = (compare n m).swap := by
  rcases Nat.lt_trichotomy m n with h | h | h
  · rw [Nat.compare_eq_lt.mpr h, Nat.compare_eq_gt.mpr h]
    rfl
  · rw [Nat.compare_eq_eq.mpr h, Nat.compare_eq_eq.mpr h.symm]
    rfl
  · rw [Nat.compare_eq_gt.mpr h, Nat.compare_eq_lt.mpr h]
    rfl

theorem tokCmp_swap (a b : Nat × Nat) : tokCmp a b = (tokCmp b a).swap := by
  unfold tokCmp
  rw [natCompare_swap a.1 b.1, natCompare_swap a.2 b.2]
  cases compare b.1 a.1 <;> rfl

theorem tokCmp_eq_iff (a b : Nat × Nat) : tokCmp a b = .eq ↔ a = b := by
  obtain ⟨a1, a2⟩ := a
  obtain ⟨b1, b2⟩ := b
  unfold tokCmp
  simp only [Prod.mk.injEq]
  rcases Nat.lt_trichotomy a1 b1 with h | h | h
  · rw [Nat.compare_eq_lt.mpr h]
    constructor
    · intro hx
      cases hx
    · rintro ⟨h1, -⟩
      exfalso
      omega
  · subst h
    rw [Nat.compare_eq_eq.mpr rfl, Nat.compare_eq_eq]
    constructor
    · intro h2
      exact ⟨rfl, h2⟩
    · rintro ⟨-, h2⟩
      exact h2
  · rw [Nat.compare_eq_gt.mpr h]
    constructor
    · intro hx
      cases hx
    · rintro ⟨h1, -⟩
      exfalso
      omega

theorem tokCmp_lt_iff (a b : Nat × Nat) :
    tokCmp a b = .lt ↔ a.1 < b.1 ∨ (a.1 = b.1 ∧ a.2 < b.2) := by
  obtain ⟨a1, a2⟩ := a
  obtain ⟨b1, b2⟩ := b
  unfold tokCmp
  rcases Nat.lt_trichotomy a1 b1 with h | h | h
  · rw [Nat.compare_eq_lt.mpr h]
    simp [h]
  · subst h
    rw [Nat.compare_eq_eq.mpr rfl, Nat.compare_eq_lt]
    simp
  · rw [Nat.compare_eq_gt.mpr h]
    constructor
    · intro hx
      cases hx
    · rintro hx
      exfalso
      rcases hx with h1 | ⟨h1, -⟩ <;> omega

theorem tokCmp_lt_trans (a b c : Nat × Nat) (h₁ : tokCmp a b = .lt) (h₂ : tokCmp b c = .lt) :
    tokCmp a c = .lt := by
  rw [tokCmp_lt_iff] at h₁ h₂ ⊢
  omega

theorem boolCompare_swap : ∀ x y : Bool, compare x y = (compare y x).swap := by decide

theorem boolCompare_eq_iff : ∀ x y : Bool, compare x y = .eq ↔ x = y := by decide

theorem boolCompare_lt_trans :
    ∀ x y z : Bool, compare x y = .lt → compare y z = .lt → compare x z = .lt := by decide

theorem listCmp_swap {α : Type} (c : α → α → Ordering) (hc : ∀ x y, c x y = (c y x).swap) :
    ∀ xs ys : List α, listCmp c xs ys = (listCmp c ys xs).swap := by
  intro xs
  induction xs with
  | nil =>
    intro ys
    cases ys <;> rfl
  | cons x xs ih =>
    intro ys
    cases ys with
    | nil => rfl
    | cons y ys2 =>
      simp only [listCmp]
      rw [hc x y]
      cases c y x with
      | lt => rfl
      | gt => rfl
      | eq => exact ih ys2

theorem listCmp_eq_iff {α : Type} (c : α → α → Ordering) (hc : ∀ x y, c x y = .eq ↔ x = y) :
    ∀ xs ys : List α, listCmp c xs ys = .eq ↔ xs = ys := by
  intro xs
  induction xs with
  | nil =>
    intro ys
    cases ys with
    | nil => simp [listCmp]
    | cons y ys2 => simp [listCmp]
  | cons x xs ih =>
    intro ys
    cases ys with
    | nil => simp [listCmp]
    | cons y ys2 =>
      simp only [listCmp, List.cons.injEq]
      cases h : c x y with
      | eq =>
        have hxy : x = y := (hc x y).mp h
        simp [hxy, ih ys2]
      | lt =>
        constructor
        · intro hx
          cases hx
        · rintro ⟨he, -⟩
          rw [(hc x y).mpr he] at h
          exact absurd h (by decide)
      | gt =>
        constructor
        · intro hx
          cases hx
        · rintro ⟨he, -⟩
          rw [(hc x y).mpr he] at h
          exact absurd h (by decide)

theorem listCmp_lt_trans {α : Type} (c : α → α → Ordering)
    (hceq : ∀ x y, c x y = .eq ↔ x = y)
    (hclt : ∀ x y z, c x y = .lt → c y z = .lt → c x z = .lt) :
    ∀ xs ys zs : List α,
      listCmp c xs ys = .lt → listCmp c ys zs = .lt → listCmp c xs zs = .lt := by
  intro xs
  induction xs with
  | nil =>
    intro ys zs h₁ h₂
    cases ys with
    | nil => simp [listCmp] at h₁
    | cons y ys2 =>
      cases zs with
      | nil => simp [listCmp] at h₂
      | cons z zs2 => rfl
  | cons x xs ih =>
    intro ys zs h₁ h₂
    cases ys with
    | nil => simp [listCmp] at h₁
    | cons y ys2 =>
      cases zs with
      | nil => simp [listCmp] at h₂
      | cons z zs2 =>
        simp only [listCmp] at h₁ h₂ ⊢
        cases hxy : c x y with
        | gt =>
          rw [hxy] at h₁
          cases h₁
        | lt =>
          rw [hxy] at h₁
          cases hyz : c y z with
          | gt =>
            rw [hyz] at h₂
            cases h₂
          | lt => rw [hclt x y z hxy hyz]
          | eq =>
            have hyz' := (hceq y z).mp hyz
            subst hyz'
            rw [hxy]
        | eq =>
          have hxy' := (hceq x y).mp hxy
          subst hxy'
          rw [hxy] at h₁
          cases hyz : c x z with
          | gt =>
            rw [hyz] at h₂
            cases h₂
          | lt => rfl
          | eq =>
            rw [hyz] at h₂
            exact ih ys2 zs2 h₁ h₂

theorem sortAlphaNum_swap (a b : String) : sortAlphaNum a b = (sortAlphaNum b a).swap := by
  unfold sortAlphaNum
  rw [listCmp_swap tokCmp tokCmp_swap (primToks a.data) (primToks b.data),
    listCmp_swap compare boolCompare_swap (caseBits a.data) (caseBits b.data)]
  cases listCmp tokCmp (primToks b.data) (primToks a.data) <;> rfl

theorem sortAlphaNum_le_trans (a b c : String)
    (h₁ : sortAlphaNum a b ≠ .gt) (h₂ : sortAlphaNum b c ≠ .gt) :
    sortAlphaNum a c ≠ .gt := by
  unfold sortAlphaNum at h₁ h₂ ⊢
  cases hab : listCmp tokCmp (primToks a.data) (primToks b.data) with
  | gt =>
    rw [hab] at h₁
    exact absurd rfl h₁
  | lt =>
    cases hbc : listCmp tokCmp (primToks b.data) (primToks c.data) with
    | gt =>
      rw [hbc] at h₂
      exact absurd rfl h₂
    | lt =>
      rw [listCmp_lt_trans tokCmp tokCmp_eq_iff tokCmp_lt_trans _ _ _ hab hbc]
      simp
    | eq =>
      have hbc' := (listCmp_eq_iff tokCmp tokCmp_eq_iff _ _).mp hbc
      rw [← hbc', hab]
      simp
  | eq =>
    have hab' := (listCmp_eq_iff tokCmp tokCmp_eq_iff _ _).mp hab
    rw [hab] at h₁
    cases hbc : listCmp tokCmp (primToks b.data) (primToks c.data) with
    | gt =>
      rw [hbc] at h₂
      exact absurd rfl h₂
    | lt =>
      rw [hab', hbc]
      simp
    | eq =>
      have hbc' := (listCmp_eq_iff tokCmp tokCmp_eq_iff _ _).mp hbc
      rw [hbc] at h₂
      have h₁' : listCmp compare (caseBits a.data) (caseBits b.data) ≠ .gt := h₁
      have h₂' : listCmp compare (caseBits b.data) (caseBits c.data) ≠ .gt := h₂
      have hpp : listCmp tokCmp (primToks a.data) (primToks c.data) = .eq :=
        (listCmp_eq_iff tokCmp tokCmp_eq_iff _ _).mpr (hab'.trans hbc')
      rw [hpp]
      cases h1c : listCmp compare (caseBits a.data) (caseBits b.data) with
      | gt => exact absurd h1c h₁'
      | lt =>
        cases h2c : listCmp compare (caseBits b.data) (caseBits c.data) with
        | gt => exact absurd h2c h₂'
        | lt =>
          rw [listCmp_lt_trans compare boolCompare_eq_iff boolCompare_lt_trans _ _ _ h1c h2c]
          simp
        | eq =>
          have h2c' := (listCmp_eq_iff compare boolCompare_eq_iff _ _).mp h2c
          rw [← h2c', h1c]
          simp
      | eq =>
        have h1c' := (listCmp_eq_iff compare boolCompare_eq_iff _ _).mp h1c
        rw [h1c']
        exact h₂'

theorem artistLe_total (a b : String) : artistLe a b ∨ artistLe b a := by
  unfold artistLe
  rw [sortAlphaNum_swap a b]
  cases sortAlphaNum b a <;> simp [Ordering.swap]

theorem sortAlphaNum_eq_of_le_ge {a b : String} (h₁ : artistLe a b) (h₂ : artistLe b a) :
    sortAlphaNum a b = .eq := by
  unfold artistLe at h₁ h₂
  cases h : sortAlphaNum b a with
  | lt =>
    rw [sortAlphaNum_swap a b, h] at h₁
    exact absurd rfl h₁
  | eq =>
    rw [sortAlphaNum_swap a b, h]
    rfl
  | gt => exact absurd h h₂

theorem sorted_perm_eq (l₁ l₂ : List String) (hp : l₁.Perm l₂)
    (hs₁ : l₁.Sorted artistLe) (hs₂ : l₂.Sorted artistLe)
    (hanti : ∀ a ∈ l₁, ∀ b ∈ l₁, sortAlphaNum a b = Ordering.eq → a = b) :
    l₁ = l₂ := by
  induction l₁ generalizing l₂ with
  | nil => exact (hp.symm.eq_nil).symm
  | cons a t₁ ih =>
    cases l₂ with
    | nil => exact absurd hp.eq_nil (by simp)
    | cons b t₂ =>
      have hab : a ∈ b :: t₂ := hp.mem_iff.mp (List.mem_cons_self a t₁)
      have hba : b ∈ a :: t₁ := hp.mem_iff.mpr (List.mem_cons_self b t₂)
      have hs₁' := List.sorted_cons.mp hs₁
      have hs₂' := List.sorted_cons.mp hs₂
      have heq : a = b := by
        by_cases h : a = b
        · exact h
        · have ha2 : a ∈ t₂ := by
            rcases List.mem_cons.mp hab with h' | h'
            · exact absurd h' h
            · exact h'
          have hb1 : b ∈ t₁ := by
            rcases List.mem_cons.mp hba with h' | h'
            · exact absurd h'.symm h
            · exact h'
          exact hanti a (List.mem_cons_self a t₁) b (List.mem_cons_of_mem a hb1)
            (sortAlphaNum_eq_of_le_ge (hs₁'.1 b hb1) (hs₂'.1 a ha2))
      subst heq
      rw [ih t₂ hp.cons_inv hs₁'.2 hs₂'.2
        (fun x hx y hy => hanti x (List.mem_cons_of_mem a hx) y (List.mem_cons_of_mem a hy))]

theorem stringMk_injective : Function.Injective (fun l : List Char => (⟨l⟩ : String)) :=
  fun _ _ h => congrArg String.data h

theorem normalizeArtists_perm (l₁ l₂ : List String) (hp : l₁.Perm l₂) :
    (normalizeArtists l₁ = none ∧ normalizeArtists l₂ = none) ∨
    (∃ r₁ r₂, normalizeArtists l₁ = some r₁ ∧ normalizeArtists l₂ = some r₂ ∧
      r₁.Perm r₂ ∧ r₁.Nodup ∧ r₂.Nodup) := by
  by_cases hmem : "" ∈ l₁
  · left
    constructor
    · unfold normalizeArtists
      rw [collectArtists_none l₁ hmem]
      rfl
    · unfold normalizeArtists
      rw [collectArtists_none l₂ (hp.mem_iff.mp hmem)]
      rfl
  · right
    have hne₁ : ∀ a ∈ l₁, a ≠ "" := fun a ha he => hmem (he ▸ ha)
    have hne₂ : ∀ a ∈ l₂, a ≠ "" := fun a ha he => hmem (hp.mem_iff.mpr (he ▸ ha))
    have htrim : ∀ (l : List String), ∀ x ∈ l.flatMap (fun a => pushedArtistsOf a),
        trimChars x ≠ [] := by
      intro l x hx
      obtain ⟨s, -, hs⟩ := List.mem_flatMap.mp hx
      obtain ⟨⟨y, hy⟩, hne⟩ := mem_pushedArtistsOf s x hs
      rw [hy, trimChars_collapseWhitespace, ← hy]
      exact hne
    obtain ⟨r₁, hr₁⟩ := dedupArtists_some (l₁.flatMap fun a => pushedArtistsOf a) [] (htrim l₁)
    obtain ⟨r₂, hr₂⟩ := dedupArtists_some (l₂.flatMap fun a => pushedArtistsOf a) [] (htrim l₂)
    obtain ⟨hnd₁, -, hm₁⟩ := dedupArtists_spec _ [] r₁ hr₁
    obtain ⟨hnd₂, -, hm₂⟩ := dedupArtists_spec _ [] r₂ hr₂
    have hpp : (l₁.flatMap fun a => pushedArtistsOf a).Perm
        (l₂.flatMap fun a => pushedArtistsOf a) := hp.flatMap_right _
    have hrm : ∀ x, x ∈ r₁ ↔ x ∈ r₂ := by
      intro x
      rw [hm₁ x, hm₂ x]
      constructor
      · rintro ⟨⟨a, ha, hax⟩, -⟩
        exact ⟨⟨a, hpp.mem_iff.mp ha, hax⟩, List.not_mem_nil x⟩
      · rintro ⟨⟨a, ha, hax⟩, -⟩
        exact ⟨⟨a, hpp.mem_iff.mpr ha, hax⟩, List.not_mem_nil x⟩
    have hrp : r₁.Perm r₂ := (List.perm_ext_iff_of_nodup hnd₁ hnd₂).mpr hrm
    refine ⟨r₁.map (fun l => (⟨l⟩ : String)), r₂.map (fun l => (⟨l⟩ : String)), ?_, ?_,
      hrp.map _, hnd₁.map stringMk_injective, hnd₂.map stringMk_injective⟩
    · unfold normalizeArtists
      rw [collectArtists_some l₁ hne₁]
      show (dedupArtists (l₁.flatMap fun a => pushedArtistsOf a) []).map _ = _
      rw [hr₁]
      rfl
    · unfold normalizeArtists
      rw [collectArtists_some l₂ hne₂]
      show (dedupArtists (l₂.flatMap fun a => pushedArtistsOf a) []).map _ = _
      rw [hr₂]
      rfl

theorem addTitleArtists_nodup (ts : List String) :
    ∀ acc : List String, acc.Nodup → (addTitleArtists acc ts).Nodup := by
  induction ts with
  | nil => exact fun acc h => h
  | cons t ts ih =>
    intro acc h
    have hstep : addTitleArtists acc (t :: ts) =
        addTitleArtists (if acc.contains t then acc else acc ++ [t]) ts := rfl
    rw [hstep]
    by_cases hc : acc.contains t
    · rw [if_pos hc]
      exact ih acc h
    · rw [if_neg hc]
      refine ih _ ?_
      have ht : t ∉ acc := fun hm => hc ((contains_iff_mem acc t).mpr hm)
      simp [List.nodup_append, h, ht]

theorem addTitleArtists_mem (ts : List String) :
    ∀ (acc : List String) (x : String), x ∈ addTitleArtists acc ts ↔ x ∈ acc ∨ x ∈ ts := by
  induction ts with
  | nil =>
    intro acc x
    simp [addTitleArtists]
  | cons t ts ih =>
    intro acc x
    have hstep : addTitleArtists acc (t :: ts) =
        addTitleArtists (if acc.contains t then acc else acc ++ [t]) ts := rfl
    rw [hstep]
    by_cases hc : acc.contains t
    · rw [if_pos hc, ih]
      constructor
      · rintro (h | h)
        · exact Or.inl h
        · exact Or.inr (List.mem_cons_of_mem t h)
      · rintro (h | h)
        · exact Or.inl h
        · rcases List.mem_cons.mp h with he | h2
          · subst he
            exact Or.inl ((contains_iff_mem acc x).mp hc)
          · exact Or.inr h2
    · rw [if_neg hc, ih]
      rw [List.mem_append, List.mem_singleton, List.mem_cons]
      tauto

theorem combinedCanonicalArtists_perm (title : String) (l₁ l₂ : List String)
    (hp : l₁.Perm l₂) :
    (combinedCanonicalArtists title l₁ = none ∧ combinedCanonicalArtists title l₂ = none) ∨
    (∃ c₁ c₂, combinedCanonicalArtists title l₁ = some c₁ ∧
      combinedCanonicalArtists title l₂ = some c₂ ∧ c₁.Perm c₂) := by
  rcases normalizeArtists_perm l₁ l₂ hp with ⟨h₁, h₂⟩ | ⟨r₁, r₂, h₁, h₂, hrp, hnd₁, hnd₂⟩
  · left
    constructor
    · unfold combinedCanonicalArtists
      rw [h₁]
      rfl
    · unfold combinedCanonicalArtists
      rw [h₂]
      rfl
  · right
    refine ⟨addTitleArtists r₁ (extractAllArtistsFromTitle title),
      addTitleArtists r₂ (extractAllArtistsFromTitle title), ?_, ?_, ?_⟩
    · unfold combinedCanonicalArtists
      rw [h₁]
      rfl
    · unfold combinedCanonicalArtists
      rw [h₂]
      rfl
    · refine (List.perm_ext_iff_of_nodup (addTitleArtists_nodup _ r₁ hnd₁)
        (addTitleArtists_nodup _ r₂ hnd₂)).mpr ?_
      intro x
      rw [addTitleArtists_mem, addTitleArtists_mem, hrp.mem_iff]

/-- Claim C3 counterexample: `["02", "2"]` is a permutation of `["2", "02"]`,
yet the two orders hash differently: the collation keys of "02" and "2" tie
(numeric collation), the sort is stable, so the input order decides the
primary artist. -/
theorem claim_C3_counterexample :
    (["02", "2"] : List String).Perm ["2", "02"] ∧
    generateSyncId "Song" ["02", "2"] 100 ≠ generateSyncId "Song" ["2", "02"] 100 := by
  constructor
  · decide
  · decide

/-- Claim C3 (amended): `generateSyncId` is deterministic, and permuting the
input artists leaves the hash unchanged PROVIDED no two distinct members of
the combined canonical artist list have tying collation keys under
`sortAlphaNum`; with a tie (e.g. "02" vs "2") the stable sort preserves the
input order of the tied pair and the hash can differ (see the
counterexample). -/
theorem claim_C3 (title : String) (artists artists2 : List String) (duration : Int)
    (hperm : artists.Perm artists2)
    (hnoties : ∀ c, combinedCanonicalArtists title artists = some c →
      ∀ a ∈ c, ∀ b ∈ c, sortAlphaNum a b = Ordering.eq → a = b) :
    generateSyncId title artists duration = generateSyncId title artists duration ∧
    generateSyncId title artists duration = generateSyncId title artists2 duration := by
  refine ⟨rfl, ?_⟩
  rcases combinedCanonicalArtists_perm title artists artists2 hperm with
    ⟨h₁, h₂⟩ | ⟨c₁, c₂, h₁, h₂, hcp⟩
  · unfold generateSyncId
    rw [h₁, h₂]
  · unfold generateSyncId
    rw [h₁, h₂]
    simp only [Option.map_some']
    have hanti : ∀ a ∈ List.insertionSort artistLe c₁, ∀ b ∈ List.insertionSort artistLe c₁,
        sortAlphaNum a b = Ordering.eq → a = b := by
      intro a ha b hb
      exact hnoties c₁ h₁ a ((List.perm_insertionSort artistLe c₁).mem_iff.mp ha)
        b ((List.perm_insertionSort artistLe c₁).mem_iff.mp hb)
    haveI : IsTotal String artistLe := ⟨artistLe_total⟩
    haveI : IsTrans String artistLe := ⟨fun a b c => sortAlphaNum_le_trans a b c⟩
    have hsort : List.insertionSort artistLe c₁ = List.insertionSort artistLe c₂ :=
      sorted_perm_eq _ _
        (((List.perm_insertionSort artistLe c₁).trans hcp).trans
          (List.perm_insertionSort artistLe c₂).symm)
        (List.sorted_insertionSort artistLe c₁) (List.sorted_insertionSort artistLe c₂) hanti
    rw [hsort]

/-- Claim C3 witness: with tie-free artists, the two orders of
`["Bob", "Alice"]` hash identically. -/
theorem claim_C3_witness :
    generateSyncId "Song" ["Bob", "Alice"] 100 = generateSyncId "Song" ["Bob", "Alice"] 100 ∧
    generateSyncId "Song" ["Bob", "Alice"] 100 = generateSyncId "Song" ["Alice", "Bob"] 100 :=
  claim_C3 "Song" ["Bob", "Alice"] ["Alice", "Bob"] 100 (by decide)
    (by
      intro c hc
      have h0 : combinedCanonicalArtists "Song" ["Bob", "Alice"] = some ["bob", "alice"] := by
        decide
      rw [h0] at hc
      injection hc with h
      subst h
      decide)

end SyncFM
